import Mathlib

/-!
# Verification of the agent execution core (`packages/agent/src/agent-loop.ts`)

This file gives a shallow embedding of the agent loop of the repository:
the message model and event variants (`types.ts`), the advisor helpers
(`advisor.ts`), and the loop itself (`agent-loop.ts`): the two entry points
`agentLoop` / `agentLoopContinue`, the shared `runLoop`, the tool dispatcher
`executeToolCalls` with its steering-interrupt skipping (`skipToolCall`),
and the advisor runner (`handleAdvisors` / `runAdvisor`).

Modelling conventions:
* The asynchronous environment is an explicit oracle: the list of assistant
  messages the streaming adapter will produce (one per LLM call, parents and
  nested advisor runs draw from the same adapter), and the successive return
  values of `getSteeringMessages` / `getFollowUpMessages` polls.  A poll
  consumes the head of its queue; an exhausted queue yields `[]`.
* All functions are total via a fuel parameter; `RunRes.incomplete` marks a
  run that does not finish within the given fuel (or hangs forever, see
  below), `RunRes.fatal` marks an exception escaping the loop (in the source
  the async closure rejects and the event stream is never sealed), and
  `RunRes.ok` marks a run that emitted `agent_end` and sealed its stream.
* `stream.push` is modelled by returning the list of events pushed during a
  call; callers concatenate.  Streaming deltas inside one LLM response
  (`message_update`, partial-message mutation) are abstracted: one LLM call
  yields its final assistant message, with `message_start` / `message_end`
  events, exactly as at line 278-281 of the source when the terminal event
  arrives.  Timestamps (`Date.now()`) are not modelled.
* Tool-result content blocks are abstracted to a single text string;
  `validateToolArguments` failures are folded into the tool's outcome
  (both are thrown inside the same `try` and caught by the same `catch`).
-/

namespace AgentCore

/-- Content block of an assistant message (`AssistantMessage.content` in
`@mariozechner/pi-ai`): text, thinking, or a tool call `{id, name, arguments}`. -/
inductive ContentBlock where
  | text (s : String)
  | thinking (s : String)
  | toolCall (id nm args : String)
deriving DecidableEq, Repr

/-- `stopReason` of an assistant message. -/
inductive StopReason where
  | stop
  | toolUse
  | error
  | aborted
  | length
deriving DecidableEq, Repr

/-- An assistant message: ordered content blocks plus a stop reason.
(Model id and usage are omitted: the loop never reads them.) -/
structure AssistantMsg where
  content : List ContentBlock
  stopReason : StopReason
deriving DecidableEq, Repr

/-- `AgentMessage` (`types.ts`): tagged union of user, assistant, toolResult
and advisor messages.  Content is abstracted to text. -/
inductive AgentMessage where
  | user (text : String)
  | assistant (m : AssistantMsg)
  | toolResult (toolCallId toolName text : String) (isError : Bool)
  | advisor (advisorName content model : String)
deriving DecidableEq, Repr

/-- A tool call extracted from assistant content. -/
structure ToolCall where
  id : String
  nm : String
  args : String
deriving DecidableEq, Repr

/-- `message.content.filter(c => c.type === "toolCall")` (source line 154 and 303). -/
def toolCallsOf (m : AssistantMsg) : List ToolCall :=
  m.content.filterMap fun c =>
    match c with
    | .toolCall i n a => some ⟨i, n, a⟩
    | _ => none

/-- The ids of the tool calls of an assistant message. -/
def toolCallIds (m : AssistantMsg) : List String :=
  (toolCallsOf m).map ToolCall.id

/-- `AgentEvent` (`types.ts`).  `message_update` events are elided together
with the streaming deltas (see the module comment); every other variant the
loop pushes is modelled.  A nested advisor run's events appear only wrapped
in `advisor_event`. -/
inductive AgentEvent where
  | agent_start
  | agent_end (messages : List AgentMessage)
  | turn_start
  | turn_end (message : AgentMessage) (toolResults : List AgentMessage)
  | message_start (message : AgentMessage)
  | message_end (message : AgentMessage)
  | tool_execution_start (toolCallId toolName args : String)
  | tool_execution_update (toolCallId toolName args updateText : String)
  | tool_execution_end (toolCallId toolName resultText : String) (isError : Bool)
  | advisor_start (advisorName toolName : String)
  | advisor_event (advisorName : String) (event : AgentEvent)
  | advisor_end (advisorName content : String)
  | advisor_error (advisorName error : String)
deriving DecidableEq, Repr

/-- Outcome of invoking a tool's `execute` (plus argument validation):
a successful result (with the texts passed to `onUpdate`, in order, and the
final result text), a synchronous throw, or an asynchronous rejection.
The source wraps both failure modes in the same `try`/`catch`
(lines 321-341). -/
inductive ToolOutcome where
  | ok (updates : List String) (text : String)
  | throwSync (msg : String)
  | rejectAsync (msg : String)

/-- A tool of the context's tool set (`AgentTool` in `types.ts`):
a name and an execution behaviour. -/
structure AgentTool where
  nm : String
  exec : ToolCall → ToolOutcome

/-- Thinking/reasoning level (`ThinkingLevel` in `types.ts`). -/
inductive ThinkingLevel where
  | off
  | minimal
  | low
  | medium
  | high
  | xhigh
deriving DecidableEq, Repr

/-- Parameters handed to an advisor trigger (`AdvisorTriggerParams`). -/
structure TriggerParams where
  messages : List AgentMessage
  toolName : String
  toolArgs : String
  toolResult : AgentMessage

/-- Parameters handed to `advisor.createContext` (source lines 425-431). -/
structure AdvisorContextParams where
  systemPrompt : String
  messages : List AgentMessage
  toolName : String
  toolArgs : String
  toolResult : AgentMessage

/-- `AdvisorConfig` (`types.ts`).  `trigger` and `createContext` may throw,
modelled by `Except`.  `advisors` nests recursively. -/
inductive AdvisorCfg where
  | mk
    (nm : String)
    (model : String)
    (trigger : TriggerParams → Except String Bool)
    (tools : List AgentTool)
    (advisors : List AdvisorCfg)
    (createContext : AdvisorContextParams → Except String (String × List AgentMessage))
    (extractRes : Option (List AgentMessage → String))
    (apiKey : Option String)
    (getApiKey : Option (String → Option String))
    (thinkingLevel : Option ThinkingLevel)

def AdvisorCfg.nm : AdvisorCfg → String
  | .mk n _ _ _ _ _ _ _ _ _ => n

def AdvisorCfg.model : AdvisorCfg → String
  | .mk _ m _ _ _ _ _ _ _ _ => m

def AdvisorCfg.trigger : AdvisorCfg → (TriggerParams → Except String Bool)
  | .mk _ _ t _ _ _ _ _ _ _ => t

def AdvisorCfg.tools : AdvisorCfg → List AgentTool
  | .mk _ _ _ ts _ _ _ _ _ _ => ts

def AdvisorCfg.advisors : AdvisorCfg → List AdvisorCfg
  | .mk _ _ _ _ as _ _ _ _ _ => as

def AdvisorCfg.createContext :
    AdvisorCfg → (AdvisorContextParams → Except String (String × List AgentMessage))
  | .mk _ _ _ _ _ c _ _ _ _ => c

def AdvisorCfg.extractRes : AdvisorCfg → Option (List AgentMessage → String)
  | .mk _ _ _ _ _ _ e _ _ _ => e

def AdvisorCfg.apiKey : AdvisorCfg → Option String
  | .mk _ _ _ _ _ _ _ k _ _ => k

def AdvisorCfg.getApiKey : AdvisorCfg → Option (String → Option String)
  | .mk _ _ _ _ _ _ _ _ g _ => g

def AdvisorCfg.thinkingLevel : AdvisorCfg → Option ThinkingLevel
  | .mk _ _ _ _ _ _ _ _ _ l => l

/-- `AgentLoopConfig` (`types.ts`), restricted to the fields the control flow
reads.  `steeringConfigured` / `followUpConfigured` model whether the
optional `getSteeringMessages` / `getFollowUpMessages` callbacks are present
(the source guards on their presence); their return values live in the
oracle.  `convertToLlm` / `transformContext` only shape the text sent to the
LLM (which is an oracle here) and are not modelled. -/
structure LoopConfig where
  model : String
  steeringConfigured : Bool
  followUpConfigured : Bool
  advisors : List AdvisorCfg
  apiKey : Option String
  getApiKey : Option (String → Option String)
  reasoning : Option ThinkingLevel

/-- The environment a run consumes: the assistant messages the streaming
adapter produces (one per LLM call, shared with nested advisor runs), and
the successive results of steering / follow-up polls. -/
structure Oracle where
  llm : List AssistantMsg
  steering : List (List AgentMessage)
  followUps : List (List AgentMessage)
deriving DecidableEq, Repr

/-- The parts of the context the loop mutates: the message log of the
context the loop runs on (`currentContext.messages`) and the accumulator of
messages appended during this run (`newMessages`). -/
structure St where
  messages : List AgentMessage
  newMessages : List AgentMessage
deriving DecidableEq, Repr

/-- How a modelled call ends: not within fuel (or waiting forever on a
child stream that will never end), an exception escaping the loop (the
stream is never sealed), or normal completion. -/
inductive RunRes (α : Type) where
  | incomplete
  | fatal (msg : String)
  | ok (a : α)
deriving DecidableEq, Repr

/-- Result of a modelled call: final oracle, final context state, the events
pushed during the call (in push order), and how the call ended. -/
structure Out (α : Type) where
  oracle : Oracle
  st : St
  events : List AgentEvent
  res : RunRes α
deriving DecidableEq, Repr

/-- One steering poll when the callback is configured: consume the next
queued answer (an exhausted queue answers `[]`). -/
def consumeSteering (O : Oracle) : List AgentMessage × Oracle :=
  match O.steering with
  | [] => ([], O)
  | s :: rest => (s, { O with steering := rest })

/-- `(await config.getSteeringMessages?.()) || []` (source lines 116, 179):
polls only when the callback is configured, else `[]`. -/
def pollSteering (cfg : LoopConfig) (O : Oracle) : List AgentMessage × Oracle :=
  if cfg.steeringConfigured then consumeSteering O else ([], O)

/-- `(await config.getFollowUpMessages?.()) || []` (source line 184). -/
def pollFollowUps (cfg : LoopConfig) (O : Oracle) : List AgentMessage × Oracle :=
  if cfg.followUpConfigured then
    match O.followUps with
    | [] => ([], O)
    | s :: rest => (s, { O with followUps := rest })
  else ([], O)

/-- `context.tools?.find(t => t.name === toolCall.name)` (source line 309). -/
def toolLookup (tools : List AgentTool) (n : String) : Option AgentTool :=
  tools.find? fun t => t.nm == n

/-- The events and tool-result message produced for one dispatched tool call
(source lines 309-365): `tool_execution_start`, the lookup/validation/execute
with its `try`/`catch` (missing tool throws `Tool <name> not found`; a
synchronous throw and an asynchronous rejection are caught identically),
`tool_execution_update` per `onUpdate`, `tool_execution_end`, then the
`toolResult` message's `message_start` / `message_end`. -/
def dispatchToolCall (tools : List AgentTool) (tc : ToolCall) :
    List AgentEvent × AgentMessage :=
  let startEv := AgentEvent.tool_execution_start tc.id tc.nm tc.args
  let finish := fun (updates : List String) (text : String) (isError : Bool) =>
    let trm := AgentMessage.toolResult tc.id tc.nm text isError
    ([startEv]
      ++ updates.map (AgentEvent.tool_execution_update tc.id tc.nm tc.args)
      ++ [AgentEvent.tool_execution_end tc.id tc.nm text isError,
          AgentEvent.message_start trm, AgentEvent.message_end trm], trm)
  match toolLookup tools tc.nm with
  | none => finish [] ("Tool " ++ tc.nm ++ " not found") true
  | some t =>
    match t.exec tc with
    | .ok updates text => finish updates text false
    | .throwSync msg => finish [] msg true
    | .rejectAsync msg => finish [] msg true

/-- The fixed body of a skipped tool call's synthetic result (source line 507). -/
def skippedText : String := "Skipped due to queued user message."

/-- `skipToolCall` (source lines 502-539): synthesize an error result for a
tool call skipped after a steering interrupt, with paired
`tool_execution_start` / `tool_execution_end` events and the result
message's `message_start` / `message_end`. -/
def skipToolCall (tc : ToolCall) : List AgentEvent × AgentMessage :=
  let trm := AgentMessage.toolResult tc.id tc.nm skippedText true
  ([AgentEvent.tool_execution_start tc.id tc.nm tc.args,
    AgentEvent.tool_execution_end tc.id tc.nm skippedText true,
    AgentEvent.message_start trm, AgentEvent.message_end trm], trm)

/-- `defaultExtractResult` (`advisor.ts` lines 36-47): the text blocks of the
last assistant message, joined with newlines; `""` when there is none. -/
def defaultExtractResult (msgs : List AgentMessage) : String :=
  match msgs.reverse.find? (fun m => match m with | .assistant _ => true | _ => false) with
  | some (.assistant m) =>
    String.intercalate "\n" (m.content.filterMap fun c =>
      match c with
      | .text s => some s
      | _ => none)
  | _ => ""

/-- The loop config `runAdvisor` builds for the nested run (source lines
471-478): only the advisor's own model, nested advisors, reasoning level and
API-key settings; the parent's steering / follow-up callbacks,
`transformContext` and advisors are not passed. -/
def advisorLoopConfig (adv : AdvisorCfg) : LoopConfig :=
  { model := adv.model
    steeringConfigured := false
    followUpConfigured := false
    advisors := adv.advisors
    apiKey := adv.apiKey
    getApiKey := adv.getApiKey
    reasoning :=
      match adv.thinkingLevel with
      | some l => if l == .off then none else some l
      | none => none }

/-- `steeringAfterTools` selection after a turn with tool calls (source lines
175-180): when the dispatcher returned non-empty steering messages they
become pending, otherwise poll `getSteeringMessages`. -/
def nextPending (cfg : LoopConfig) (steerOpt : Option (List AgentMessage)) (O : Oracle) :
    List AgentMessage × Oracle :=
  match steerOpt with
  | some s => if s.isEmpty then pollSteering cfg O else (s, O)
  | none => pollSteering cfg O

/-- Whether a stop reason ends the run at DECIDE (source line 146). -/
def haltStop (r : StopReason) : Bool :=
  r == .error || r == .aborted

mutual

/-- The turn loop of `runLoop` (source lines 114-197), after the initial
steering poll, written as recursion on the adapter's response list via fuel.
Each call corresponds to one iteration of the inner `while`: emit
`turn_start` (except on the first turn, whose `turn_start` the entry point
already pushed), inject the pending messages, stream the assistant response,
end the run on `error`/`aborted`, otherwise dispatch tool calls, emit
`turn_end`, pick the next pending messages, and loop while tool calls were
present or pending messages remain; when neither, poll follow-ups and either
loop again or emit `agent_end` and seal the stream. -/
def runTurns : Nat → LoopConfig → List AgentTool → String → Oracle → St →
    Bool → List AgentMessage → Out Unit
  | 0, _, _, _, O, S, _, _ => ⟨O, S, [], .incomplete⟩
  | fuel+1, cfg, tools, sys, O, S, firstTurn, pending =>
    let evTurn : List AgentEvent := if firstTurn then [] else [.turn_start]
    let evInj := pending.flatMap fun m => [AgentEvent.message_start m, AgentEvent.message_end m]
    let S1 : St := ⟨S.messages ++ pending, S.newMessages ++ pending⟩
    match O.llm with
    | [] => ⟨O, S1, evTurn ++ evInj, .incomplete⟩
    | m :: llmRest =>
      let O1 : Oracle := { O with llm := llmRest }
      let aMsg := AgentMessage.assistant m
      let evPre := evTurn ++ evInj ++ [AgentEvent.message_start aMsg, AgentEvent.message_end aMsg]
      let S2 : St := ⟨S1.messages ++ [aMsg], S1.newMessages ++ [aMsg]⟩
      if haltStop m.stopReason then
        ⟨O1, S2, evPre ++ [.turn_end aMsg [], .agent_end S2.newMessages], .ok ()⟩
      else
        let tcs := toolCallsOf m
        if tcs.isEmpty then
          let evTE : List AgentEvent := [.turn_end aMsg []]
          let p1 := pollSteering cfg O1
          if p1.1.isEmpty then
            let p2 := pollFollowUps cfg p1.2
            if p2.1.isEmpty then
              ⟨p2.2, S2, evPre ++ evTE ++ [.agent_end S2.newMessages], .ok ()⟩
            else
              let r := runTurns fuel cfg tools sys p2.2 S2 false p2.1
              ⟨r.oracle, r.st, evPre ++ evTE ++ r.events, r.res⟩
          else
            let r := runTurns fuel cfg tools sys p1.2 S2 false p1.1
            ⟨r.oracle, r.st, evPre ++ evTE ++ r.events, r.res⟩
        else
          let e := execToolCalls fuel cfg tools sys O1 S2 tcs
          match e.res with
          | .incomplete => ⟨e.oracle, e.st, evPre ++ e.events, .incomplete⟩
          | .fatal msg => ⟨e.oracle, e.st, evPre ++ e.events, .fatal msg⟩
          | .ok (results, steerOpt) =>
            let evTE : List AgentEvent := [.turn_end aMsg results]
            let p := nextPending cfg steerOpt e.oracle
            let r := runTurns fuel cfg tools sys p.2 e.st false p.1
            ⟨r.oracle, r.st, evPre ++ e.events ++ evTE ++ r.events, r.res⟩

/-- `executeToolCalls` (source lines 294-396): dispatch each tool call in
declaration order, append its result to the log, run the advisors, then —
when `getSteeringMessages` is configured — poll it and, on a non-empty
answer, skip every remaining call via `skipToolCall` and return the steering
messages.  Returns the tool-result list and the optional steering messages. -/
def execToolCalls : Nat → LoopConfig → List AgentTool → String → Oracle → St →
    List ToolCall → Out (List AgentMessage × Option (List AgentMessage))
  | 0, _, _, _, O, S, _ => ⟨O, S, [], .incomplete⟩
  | _+1, _, _, _, O, S, [] => ⟨O, S, [], .ok ([], none)⟩
  | fuel+1, cfg, tools, sys, O, S, tc :: rest =>
    let d := dispatchToolCall tools tc
    let S1 : St := ⟨S.messages ++ [d.2], S.newMessages ++ [d.2]⟩
    let h := handleAdvisors fuel cfg.advisors sys O S1 tc d.2
    match h.res with
    | .incomplete => ⟨h.oracle, h.st, d.1 ++ h.events, .incomplete⟩
    | .fatal msg => ⟨h.oracle, h.st, d.1 ++ h.events, .fatal msg⟩
    | .ok () =>
      if cfg.steeringConfigured then
        let p := consumeSteering h.oracle
        if p.1.isEmpty then
          let r := execToolCalls fuel cfg tools sys p.2 h.st rest
          ⟨r.oracle, r.st, d.1 ++ h.events ++ r.events,
            match r.res with
            | .ok (rs, so) => .ok (d.2 :: rs, so)
            | .incomplete => .incomplete
            | .fatal msg => .fatal msg⟩
        else
          let skipped := rest.map skipToolCall
          let S2 : St := ⟨h.st.messages ++ skipped.map Prod.snd,
                          h.st.newMessages ++ skipped.map Prod.snd⟩
          ⟨p.2, S2, d.1 ++ h.events ++ skipped.flatMap Prod.fst,
            .ok (d.2 :: skipped.map Prod.snd, some p.1)⟩
      else
        let r := execToolCalls fuel cfg tools sys h.oracle h.st rest
        ⟨r.oracle, r.st, d.1 ++ h.events ++ r.events,
          match r.res with
          | .ok (rs, so) => .ok (d.2 :: rs, so)
          | .incomplete => .incomplete
          | .fatal msg => .fatal msg⟩

/-- `handleAdvisors` (source lines 401-444): for each advisor in declaration
order, await its trigger — a throw here is NOT caught (line 414 sits outside
every `try`) and escapes the loop as a fatal error — and, when triggered,
emit `advisor_start`, run the advisor, and on a non-null advisor message
append it to the log and emit its `message_start` / `message_end` and
`advisor_end`. -/
def handleAdvisors : Nat → List AdvisorCfg → String → Oracle → St →
    ToolCall → AgentMessage → Out Unit
  | 0, _, _, O, S, _, _ => ⟨O, S, [], .incomplete⟩
  | _+1, [], _, O, S, _, _ => ⟨O, S, [], .ok ()⟩
  | fuel+1, adv :: advRest, sys, O, S, tc, trm =>
    match adv.trigger ⟨S.messages, tc.nm, tc.args, trm⟩ with
    | .error msg => ⟨O, S, [], .fatal msg⟩
    | .ok false => handleAdvisors fuel advRest sys O S tc trm
    | .ok true =>
      let r := runAdvisor fuel adv ⟨sys, S.messages, tc.nm, tc.args, trm⟩ O
      match r.2.2 with
      | .incomplete => ⟨r.1, S, .advisor_start adv.nm tc.nm :: r.2.1, .incomplete⟩
      | .fatal _ => ⟨r.1, S, .advisor_start adv.nm tc.nm :: r.2.1, .incomplete⟩
      | .ok none =>
        let k := handleAdvisors fuel advRest sys r.1 S tc trm
        ⟨k.oracle, k.st, .advisor_start adv.nm tc.nm :: (r.2.1 ++ k.events), k.res⟩
      | .ok (some advMsg) =>
        let S1 : St := ⟨S.messages ++ [advMsg.2], S.newMessages ++ [advMsg.2]⟩
        let evMsg : List AgentEvent :=
          [.message_start advMsg.2, .message_end advMsg.2, .advisor_end adv.nm advMsg.1]
        let k := handleAdvisors fuel advRest sys r.1 S1 tc trm
        ⟨k.oracle, k.st, .advisor_start adv.nm tc.nm :: (r.2.1 ++ evMsg ++ k.events), k.res⟩

/-- `runAdvisor` (source lines 449-500): build the advisor context — a throw
in `createContext` is caught and becomes an `advisor_error` event — then
start a nested `agentLoop` with the created prompt messages, an empty log,
the advisor's tools and `advisorLoopConfig`; forward every child event
wrapped as `advisor_event`; on child completion extract the result text and
return the advisor message (`none` when the text is empty).  A child stream
that never ends (child fatal) leaves the parent waiting forever.  Returns
the final oracle, the wrapped events, and the content/message pair. -/
def runAdvisor : Nat → AdvisorCfg → AdvisorContextParams → Oracle →
    Oracle × (List AgentEvent × RunRes (Option (String × AgentMessage)))
  | 0, _, _, O => (O, ([], .incomplete))
  | fuel+1, adv, params, O =>
    match adv.createContext params with
    | .error msg => (O, ([.advisor_error adv.nm msg], .ok none))
    | .ok (sysP, prompts) =>
      let child := startRun fuel (advisorLoopConfig adv) adv.tools sysP prompts [] O
      let wrapped := child.events.map (AgentEvent.advisor_event adv.nm)
      match child.res with
      | .incomplete => (child.oracle, (wrapped, .incomplete))
      | .fatal _ => (child.oracle, (wrapped, .incomplete))
      | .ok () =>
        let content := (adv.extractRes.getD defaultExtractResult) child.st.newMessages
        if content == "" then (child.oracle, (wrapped, .ok none))
        else (child.oracle, (wrapped,
          .ok (some (content, .advisor adv.nm content adv.model))))

/-- `agentLoop` (source lines 30-57) together with the head of `runLoop`:
build the run context whose message array is a fresh copy
`[...context.messages, ...prompts]` (line 43), push `agent_start`,
`turn_start` and each prompt's `message_start` / `message_end`, poll
`getSteeringMessages` once (line 116), then enter the turn loop. -/
def startRun : Nat → LoopConfig → List AgentTool → String → List AgentMessage →
    List AgentMessage → Oracle → Out Unit
  | 0, _, _, _, prompts, callerLog, O =>
    ⟨O, ⟨callerLog ++ prompts, prompts⟩,
      [.agent_start, .turn_start]
        ++ prompts.flatMap (fun p => [AgentEvent.message_start p, AgentEvent.message_end p]),
      .incomplete⟩
  | fuel+1, cfg, tools, sys, prompts, callerLog, O =>
    let S0 : St := ⟨callerLog ++ prompts, prompts⟩
    let ev0 : List AgentEvent :=
      [.agent_start, .turn_start]
        ++ prompts.flatMap fun p => [AgentEvent.message_start p, AgentEvent.message_end p]
    let p := pollSteering cfg O
    let r := runTurns fuel cfg tools sys p.2 S0 true p.1
    ⟨r.oracle, r.st, ev0 ++ r.events, r.res⟩

end

/-- `agentLoopContinue` (source lines 67-94): reject an empty log with
`"Cannot continue: no messages in context"` and a log ending in an assistant
message with `"Cannot continue from message role: assistant"`, both thrown
synchronously before the stream exists (no event is emitted); otherwise run
the loop directly on the caller's message array (the context is shallow
copied, the array is shared), with no prompts injected. -/
def continueRun (fuel : Nat) (cfg : LoopConfig) (tools : List AgentTool) (sys : String)
    (callerLog : List AgentMessage) (O : Oracle) : Except String (Out Unit) :=
  if callerLog.isEmpty then
    .error "Cannot continue: no messages in context"
  else if (callerLog.getLast?.map fun m =>
      match m with | .assistant _ => true | _ => false).getD false then
    .error "Cannot continue from message role: assistant"
  else
    let S0 : St := ⟨callerLog, []⟩
    let p := pollSteering cfg O
    let r := runTurns fuel cfg tools sys p.2 S0 true p.1
    .ok ⟨r.oracle, r.st, [.agent_start, .turn_start] ++ r.events, r.res⟩

/-- The `agentLoop` entry point with the caller's aliasing made explicit:
the run outcome, paired with the content of the caller-supplied
`context.messages` array after the run.  Source line 41-44 spreads the
caller's array into a fresh one (`messages: [...context.messages,
...prompts]`), so `runLoop`'s pushes land on the copy and the caller's array
is left exactly as it was. -/
def agentLoopEntry (fuel : Nat) (cfg : LoopConfig) (tools : List AgentTool) (sys : String)
    (prompts callerLog : List AgentMessage) (O : Oracle) : Out Unit × List AgentMessage :=
  (startRun fuel cfg tools sys prompts callerLog O, callerLog)

/-- The `agentLoopContinue` entry point with the caller's aliasing made
explicit: source line 85 shallow-copies the context (`{ ...context }`), so
`currentContext.messages` is the caller's own array and every push of the
run lands in it; after the run the caller's array holds the final log. -/
def agentLoopContinueEntry (fuel : Nat) (cfg : LoopConfig) (tools : List AgentTool)
    (sys : String) (callerLog : List AgentMessage) (O : Oracle) :
    Except String (Out Unit × List AgentMessage) :=
  (continueRun fuel cfg tools sys callerLog O).map fun r => (r, r.st.messages)

end AgentCore

namespace AgentCore

/-! ## Helper predicates -/

/-- Is this event a `tool_execution_start`? -/
def isToolExecStartEv : AgentEvent → Bool
  | .tool_execution_start _ _ _ => true
  | _ => false

/-- Is this event one of the advisor lifecycle events
(`advisor_start`, `advisor_event`, `advisor_end`, `advisor_error`)? -/
def isAdvisorEv : AgentEvent → Bool
  | .advisor_start _ _ => true
  | .advisor_event _ _ => true
  | .advisor_end _ _ => true
  | .advisor_error _ _ => true
  | _ => false

/-- Is this a (top-level) `agent_end` event? -/
def isAgentEndEv : AgentEvent → Bool
  | .agent_end _ => true
  | _ => false

/-- Is this message a user message? -/
def isUserMsg : AgentMessage → Bool
  | .user _ => true
  | _ => false

/-- Is this message an assistant message? -/
def isAssistantMsg : AgentMessage → Bool
  | .assistant _ => true
  | _ => false

/-- Is this message a tool result? -/
def isToolResultMsg : AgentMessage → Bool
  | .toolResult _ _ _ _ => true
  | _ => false

/-- Is this message an advisor message? -/
def isAdvisorMsg : AgentMessage → Bool
  | .advisor _ _ _ => true
  | _ => false

/-! ## C5: error/aborted stop reasons end the run before any tool runs -/

/-- **C5.** For every run state, when the streamed assistant message has
`stopReason` `error` or `aborted`, the turn at that point emits `turn_end`
with an empty tool-result list followed by `agent_end` (sealing the stream,
`RunRes.ok`), exactly one assistant message is appended, and no tool call
of that assistant message is executed (no `tool_execution_start` is ever
emitted in that turn).  Source lines 146-151. -/
theorem claim_C5 (fuel : Nat) (cfg : LoopConfig) (tools : List AgentTool)
    (sys : String) (O : Oracle) (S : St) (firstTurn : Bool) (pending : List AgentMessage)
    (m : AssistantMsg) (llmRest : List AssistantMsg)
    (hllm : O.llm = m :: llmRest) (hstop : haltStop m.stopReason = true) :
    runTurns (fuel+1) cfg tools sys O S firstTurn pending =
      ⟨{ O with llm := llmRest },
       ⟨S.messages ++ pending ++ [.assistant m], S.newMessages ++ pending ++ [.assistant m]⟩,
       (if firstTurn then [] else [.turn_start])
         ++ pending.flatMap (fun x => [AgentEvent.message_start x, AgentEvent.message_end x])
         ++ [.message_start (.assistant m), .message_end (.assistant m),
             .turn_end (.assistant m) [],
             .agent_end (S.newMessages ++ pending ++ [.assistant m])],
       .ok ()⟩ ∧
    ∀ e ∈ (runTurns (fuel+1) cfg tools sys O S firstTurn pending).events,
      isToolExecStartEv e = false := by
  obtain ⟨llm, steer, fu⟩ := O
  simp only [Oracle.llm] at hllm
  subst hllm
  have heq :
      runTurns (fuel+1) cfg tools sys ⟨m :: llmRest, steer, fu⟩ S firstTurn pending =
        ⟨{ llm := llmRest, steering := steer, followUps := fu },
         ⟨S.messages ++ pending ++ [.assistant m], S.newMessages ++ pending ++ [.assistant m]⟩,
         (if firstTurn then [] else [.turn_start])
           ++ pending.flatMap (fun x => [AgentEvent.message_start x, AgentEvent.message_end x])
           ++ [.message_start (.assistant m), .message_end (.assistant m),
               .turn_end (.assistant m) [],
               .agent_end (S.newMessages ++ pending ++ [.assistant m])],
         .ok ()⟩ := by
    simp [runTurns, hstop, List.append_assoc]
  refine ⟨heq, ?_⟩
  rw [heq]
  simp only [isToolExecStartEv, List.mem_append, List.mem_flatMap, List.mem_cons,
    List.not_mem_nil, or_false, List.mem_ite_nil_left, List.mem_singleton]
  rintro e ((⟨_, rfl⟩ | ⟨a, _, (rfl | rfl)⟩) | (rfl | rfl | rfl | rfl)) <;> rfl

/-- Witness for C5 at a concrete input: one aborted assistant response,
no prompts pending, first turn. -/
theorem claim_C5_witness :
    runTurns 1 ⟨"m", false, false, [], none, none, none⟩ [] "s"
        ⟨[⟨[], .aborted⟩], [], []⟩ ⟨[], []⟩ true [] =
      ⟨⟨[], [], []⟩, ⟨[.assistant ⟨[], .aborted⟩], [.assistant ⟨[], .aborted⟩]⟩,
       [.message_start (.assistant ⟨[], .aborted⟩), .message_end (.assistant ⟨[], .aborted⟩),
        .turn_end (.assistant ⟨[], .aborted⟩) [], .agent_end [.assistant ⟨[], .aborted⟩]],
       .ok ()⟩ := by
  have h := claim_C5 0 ⟨"m", false, false, [], none, none, none⟩ [] "s"
    ⟨[⟨[], .aborted⟩], [], []⟩ ⟨[], []⟩ true [] ⟨[], .aborted⟩ [] rfl rfl
  simpa using h.1

end AgentCore

namespace AgentCore

/-! ## C6: continue-entry preconditions fail synchronously, before any event -/

/-- **C6.** The continue entry fails synchronously — the `Except.error` is
returned before a stream exists, so no event is ever emitted — with
`"Cannot continue: no messages in context"` on an empty log and
`"Cannot continue from message role: assistant"` when the last logged
message is an assistant message; on any other log it returns a stream whose
events begin normally with `agent_start`, `turn_start`.
Source lines 73-79. -/
theorem claim_C6 (fuel : Nat) (cfg : LoopConfig) (tools : List AgentTool)
    (sys : String) (log : List AgentMessage) (O : Oracle) :
    (log = [] →
      agentLoopContinueEntry fuel cfg tools sys log O =
        .error "Cannot continue: no messages in context")
  ∧ (∀ m, log.getLast? = some (.assistant m) →
      agentLoopContinueEntry fuel cfg tools sys log O =
        .error "Cannot continue from message role: assistant")
  ∧ (log ≠ [] → (∀ m, log.getLast? ≠ some (.assistant m)) →
      ∃ r : Out Unit × List AgentMessage,
        agentLoopContinueEntry fuel cfg tools sys log O = .ok r ∧
        ∃ tail, r.1.events = .agent_start :: .turn_start :: tail) := by
  refine ⟨?_, ?_, ?_⟩
  · rintro rfl
    rfl
  · intro m hlast
    have hne : log ≠ [] := by
      intro h
      rw [h] at hlast
      simp at hlast
    simp only [agentLoopContinueEntry, continueRun, List.isEmpty_eq_true, hne,
      if_false, hlast]
    rfl
  · intro hne hnotasst
    have hempty : log.isEmpty = false := by
      simpa [List.isEmpty_iff] using hne
    have hcond : (log.getLast?.map fun m =>
        match m with | .assistant _ => true | _ => false).getD false = false := by
      rcases hlast : log.getLast? with _ | m
      · rfl
      · rcases m with t | a | i | n
        · rfl
        · exact absurd hlast (hnotasst a)
        · rfl
        · rfl
    refine ⟨(⟨(runTurns fuel cfg tools sys (pollSteering cfg O).2 ⟨log, []⟩ true
        (pollSteering cfg O).1).oracle,
      (runTurns fuel cfg tools sys (pollSteering cfg O).2 ⟨log, []⟩ true
        (pollSteering cfg O).1).st,
      .agent_start :: .turn_start :: (runTurns fuel cfg tools sys (pollSteering cfg O).2
        ⟨log, []⟩ true (pollSteering cfg O).1).events,
      (runTurns fuel cfg tools sys (pollSteering cfg O).2 ⟨log, []⟩ true
        (pollSteering cfg O).1).res⟩,
      (runTurns fuel cfg tools sys (pollSteering cfg O).2 ⟨log, []⟩ true
        (pollSteering cfg O).1).st.messages), ?_,
      (runTurns fuel cfg tools sys (pollSteering cfg O).2 ⟨log, []⟩ true
        (pollSteering cfg O).1).events, rfl⟩
    simp only [agentLoopContinueEntry, continueRun, hempty, hcond]
    rfl

/-- Witness for C6, discharging each hypothesis at concrete inputs:
the empty log, a log ending in an assistant message, and a valid log. -/
theorem claim_C6_witness :
    (agentLoopContinueEntry 0 ⟨"m", false, false, [], none, none, none⟩ [] "s" []
        ⟨[], [], []⟩ = .error "Cannot continue: no messages in context")
  ∧ (agentLoopContinueEntry 0 ⟨"m", false, false, [], none, none, none⟩ [] "s"
        [.assistant ⟨[], .stop⟩] ⟨[], [], []⟩ =
      .error "Cannot continue from message role: assistant")
  ∧ ∃ r : Out Unit × List AgentMessage,
      agentLoopContinueEntry 0 ⟨"m", false, false, [], none, none, none⟩ [] "s"
        [.user "hi"] ⟨[], [], []⟩ = .ok r ∧
      ∃ tail, r.1.events = .agent_start :: .turn_start :: tail := by
  refine ⟨?_, ?_, ?_⟩
  · exact (claim_C6 0 _ [] "s" [] ⟨[], [], []⟩).1 rfl
  · exact (claim_C6 0 _ [] "s" [.assistant ⟨[], .stop⟩] ⟨[], [], []⟩).2.1 ⟨[], .stop⟩ rfl
  · exact (claim_C6 0 _ [] "s" [.user "hi"] ⟨[], [], []⟩).2.2 (by decide)
      (by intro m h; simp [List.getLast?] at h)

/-! ## C7: tool dispatch error handling -/

/-- **C7.** For every dispatched tool call: a missing tool yields a
tool-result message with `isError = true` and text `"Tool <name> not
found"`; an error thrown synchronously or rejected asynchronously by the
tool's `execute` is caught and becomes a tool-result with `isError = true`
whose text is the error's message — `dispatchToolCall` is total, errors are
never re-thrown — and a synchronous throw and an asynchronous rejection
with the same message produce identical dispatch outcomes (events and
result message).  Finally, after an erroneous call the dispatcher loop
simply continues with the remaining calls (shown here for a config with no
advisors and no steering callback).  Source lines 307-365. -/
theorem claim_C7 (tools : List AgentTool) (tc : ToolCall) :
    (toolLookup tools tc.nm = none →
      dispatchToolCall tools tc =
        ([.tool_execution_start tc.id tc.nm tc.args,
          .tool_execution_end tc.id tc.nm ("Tool " ++ tc.nm ++ " not found") true,
          .message_start (.toolResult tc.id tc.nm ("Tool " ++ tc.nm ++ " not found") true),
          .message_end (.toolResult tc.id tc.nm ("Tool " ++ tc.nm ++ " not found") true)],
         .toolResult tc.id tc.nm ("Tool " ++ tc.nm ++ " not found") true))
  ∧ (∀ t msg, toolLookup tools tc.nm = some t → t.exec tc = .throwSync msg →
      dispatchToolCall tools tc =
        ([.tool_execution_start tc.id tc.nm tc.args,
          .tool_execution_end tc.id tc.nm msg true,
          .message_start (.toolResult tc.id tc.nm msg true),
          .message_end (.toolResult tc.id tc.nm msg true)],
         .toolResult tc.id tc.nm msg true))
  ∧ (∀ tools' t t' msg, toolLookup tools tc.nm = some t → t.exec tc = .throwSync msg →
      toolLookup tools' tc.nm = some t' → t'.exec tc = .rejectAsync msg →
      dispatchToolCall tools tc = dispatchToolCall tools' tc)
  ∧ (∀ fuel cfg sys O S rest, cfg.advisors = [] → cfg.steeringConfigured = false →
      execToolCalls (fuel+2) cfg tools sys O S (tc :: rest) =
        (let r := execToolCalls (fuel+1) cfg tools sys O
            ⟨S.messages ++ [(dispatchToolCall tools tc).2],
             S.newMessages ++ [(dispatchToolCall tools tc).2]⟩ rest
         ⟨r.oracle, r.st, (dispatchToolCall tools tc).1 ++ r.events,
          match r.res with
          | .ok (rs, so) => .ok ((dispatchToolCall tools tc).2 :: rs, so)
          | .incomplete => .incomplete
          | .fatal msg => .fatal msg⟩)) := by
  refine ⟨?_, ?_, ?_, ?_⟩
  · intro hnone
    simp [dispatchToolCall, hnone]
  · intro t msg hsome hexec
    simp [dispatchToolCall, hsome, hexec]
  · intro tools' t t' msg hsome hexec hsome' hexec'
    simp [dispatchToolCall, hsome, hexec, hsome', hexec']
  · intro fuel cfg sys O S rest hadv hsteer
    simp only [execToolCalls, hadv, hsteer, handleAdvisors]
    simp

end AgentCore

namespace AgentCore

/-! ## Shared helper lemma: a turn opens with `turn_start` (unless first) and
the injection of the pending messages, before anything else -/

/-- On any turn, the events open with `turn_start` (except on the first
turn) followed by `message_start`/`message_end` for each pending message,
before any other event: pending messages are injected at the start of the
turn (source lines 125-140). -/
theorem runTurns_inject (fuel : Nat) (cfg : LoopConfig) (tools : List AgentTool)
    (sys : String) (O : Oracle) (S : St) (firstTurn : Bool) (pending : List AgentMessage) :
    ∃ tail, (runTurns (fuel+1) cfg tools sys O S firstTurn pending).events =
      (if firstTurn then [] else [.turn_start])
        ++ pending.flatMap (fun x => [AgentEvent.message_start x, AgentEvent.message_end x])
        ++ tail := by
  obtain ⟨llm, steer, fu⟩ := O
  cases llm with
  | nil => exact ⟨[], by simp [runTurns]⟩
  | cons m rest =>
    simp only [runTurns]
    repeat' split
    all_goals dsimp only
    all_goals simp only [List.append_assoc, List.nil_append, List.cons_append]
    all_goals exact ⟨_, rfl⟩

/-! ## Concrete fixtures shared by witnesses and counterexamples -/

/-- A loop config with no steering, no follow-ups and no advisors. -/
def cfgPlain : LoopConfig := ⟨"m", false, false, [], none, none, none⟩

/-- A tool named `echo` that always succeeds. -/
def echoToolFx : AgentTool := ⟨"echo", fun _ => .ok [] "echoed: x"⟩

/-- An adapter oracle producing a single plain text answer. -/
def OHello : Oracle := ⟨[⟨[.text "hello"], .stop⟩], [], []⟩

/-- An adapter oracle producing one tool call and then a final answer. -/
def OToolThenStop : Oracle :=
  ⟨[⟨[.toolCall "t1" "echo" "{}"], .toolUse⟩, ⟨[.text "done"], .stop⟩], [], []⟩

/-! ## C3 (corrected): which advisor failures are caught -/

/-- An advisor whose trigger always throws. -/
def trigBoomAdvisor : AdvisorCfg :=
  .mk "alpha" "m" (fun _ => .error "boom") [] [] (fun _ => .ok ("", [])) none none none none

/-- A loop config with only `trigBoomAdvisor`. -/
def cfgTrigBoom : LoopConfig := ⟨"m", false, false, [trigBoomAdvisor], none, none, none⟩

/-- **C3 counterexample.** The claim says an error thrown by an advisor's
*trigger* is caught and surfaces as `advisor_error`, with the parent run
still completing with `agent_end`.  It is false: `advisor.trigger` is
awaited at source line 414, outside every `try`, so the error escapes the
loop.  On this concrete run the result is a fatal escape (`.fatal "boom"`,
the stream is never sealed), no `advisor_error` event is emitted, and no
`agent_end` is emitted. -/
theorem claim_C3_counterexample :
    (startRun 5 cfgTrigBoom [echoToolFx] "sys" [.user "go"] [] OToolThenStop).res =
      .fatal "boom"
  ∧ ((startRun 5 cfgTrigBoom [echoToolFx] "sys" [.user "go"] [] OToolThenStop).events.filter
      (fun e => match e with | .advisor_error _ _ => true | _ => false)) = []
  ∧ ((startRun 5 cfgTrigBoom [echoToolFx] "sys" [.user "go"] [] OToolThenStop).events.filter
      isAgentEndEv) = [] := by decide

/-- **C3 (amended).** An error thrown by an advisor's `createContext` (or
by the synchronous part of the nested run) is caught inside `runAdvisor`
(source lines 462-499): it surfaces as a single `advisor_error` event, the
advisor is skipped (no advisor message, no nested run, the oracle is left
untouched), and it is never fatal — `handleAdvisors` simply proceeds with
the remaining advisors, so the parent run is unaffected.  An error thrown
by the *trigger* itself, by contrast, is not caught (see the
counterexample). -/
theorem claim_C3 (fuel : Nat) (adv : AdvisorCfg) (O : Oracle) (e : String)
    (hcc : ∀ p, adv.createContext p = .error e) :
    (∀ params, runAdvisor (fuel+1) adv params O =
      (O, ([.advisor_error adv.nm e], .ok none)))
  ∧ (∀ advRest sys S tc trm,
      adv.trigger ⟨S.messages, tc.nm, tc.args, trm⟩ = .ok true →
      handleAdvisors (fuel+2) (adv :: advRest) sys O S tc trm =
        (let k := handleAdvisors (fuel+1) advRest sys O S tc trm
         ⟨k.oracle, k.st,
          .advisor_start adv.nm tc.nm :: .advisor_error adv.nm e :: k.events, k.res⟩)) := by
  constructor
  · intro params
    simp [runAdvisor, hcc]
  · intro advRest sys S tc trm htrig
    simp only [handleAdvisors, htrig, runAdvisor, hcc]
    rfl

/-- Witness for C3: applies the theorem at a concrete advisor whose
`createContext` throws `"bad"`, and checks by evaluation that the full
parent run is unaffected: it completes with `agent_end`, with exactly one
`advisor_error` event. -/
theorem claim_C3_witness :
    runAdvisor 1 (.mk "cc" "m" (fun _ => .ok true) [] []
        (fun _ => .error "bad") none none none none)
      ⟨"sys", [], "echo", "{}", .toolResult "t1" "echo" "echoed: x" false⟩ OHello =
      (OHello, ([.advisor_error "cc" "bad"], .ok none))
  ∧ (startRun 5 ⟨"m", false, false,
        [.mk "cc" "m" (fun _ => .ok true) [] [] (fun _ => .error "bad") none none none none],
        none, none, none⟩ [echoToolFx] "sys" [.user "go"] [] OToolThenStop).res = .ok ()
  ∧ ((startRun 5 ⟨"m", false, false,
        [.mk "cc" "m" (fun _ => .ok true) [] [] (fun _ => .error "bad") none none none none],
        none, none, none⟩ [echoToolFx] "sys" [.user "go"] [] OToolThenStop).events.filter
      (fun e => match e with | .advisor_error _ _ => true | _ => false)) =
      [.advisor_error "cc" "bad"]
  ∧ ((startRun 5 ⟨"m", false, false,
        [.mk "cc" "m" (fun _ => .ok true) [] [] (fun _ => .error "bad") none none none none],
        none, none, none⟩ [echoToolFx] "sys" [.user "go"] [] OToolThenStop).events.getLast?).map
        isAgentEndEv = some true := by
  refine ⟨?_, by decide, by decide, by decide⟩
  exact (claim_C3 0 (.mk "cc" "m" (fun _ => .ok true) [] []
      (fun _ => .error "bad") none none none none) OHello "bad" (fun _ => rfl)).1
    ⟨"sys", [], "echo", "{}", .toolResult "t1" "echo" "echoed: x" false⟩

end AgentCore

namespace AgentCore

/-! ## C4 (corrected): both entries pre-poll `getSteeringMessages` -/

/-- A steering-enabled config with no advisors. -/
def cfgSteer : LoopConfig := ⟨"m", true, false, [], none, none, none⟩

/-- **C4 counterexample.**  The claim says a run created via the continue
entry does not poll `getSteeringMessages` before its first LLM call.  It is
false: both entries share `runLoop`, whose first statement polls
`getSteeringMessages` (source line 116).  On this concrete continue-entry
run, the single queued steering answer `[user "steer"]` is consumed by the
pre-turn poll and injected into the log *before* the first assistant
message. -/
theorem claim_C4_counterexample :
    ((agentLoopContinueEntry 5 cfgSteer [] "sys" [.user "u0"]
        ⟨[⟨[.text "hello"], .stop⟩], [[.user "steer"]], []⟩).toOption.map
        (fun r => (r.1.res, r.1.st.messages, r.1.oracle.steering))) =
      some (.ok (), [.user "u0", .user "steer", .assistant ⟨[.text "hello"], .stop⟩], []) := by
  decide

/-- **C4 (amended).**  The pre-turn poll of `getSteeringMessages` happens on
*both* entries: whenever the steering callback is configured and its next
answer is `s`, the pre-turn poll consumes `s` and `s` becomes the pending
batch of the first turn — both the start entry and the continue entry open
with the injection events for `s` before any assistant `message_start`.
Source line 116, reached from both `agentLoop` (line 53) and
`agentLoopContinue` (line 90). -/
theorem claim_C4 (fuel : Nat) (cfg : LoopConfig) (tools : List AgentTool)
    (sys : String) (prompts log : List AgentMessage) (O : Oracle)
    (s : List AgentMessage) (srest : List (List AgentMessage))
    (hcfg : cfg.steeringConfigured = true) (hs : O.steering = s :: srest) :
    pollSteering cfg O = (s, { O with steering := srest })
  ∧ (∃ tail, (startRun (fuel+2) cfg tools sys prompts log O).events =
      [.agent_start, .turn_start]
        ++ prompts.flatMap (fun p => [AgentEvent.message_start p, AgentEvent.message_end p])
        ++ s.flatMap (fun x => [AgentEvent.message_start x, AgentEvent.message_end x]) ++ tail)
  ∧ (log.isEmpty = false →
      (log.getLast?.map fun m =>
        match m with | .assistant _ => true | _ => false).getD false = false →
      ∃ out tail, continueRun (fuel+1) cfg tools sys log O = .ok out ∧
        out.events = [.agent_start, .turn_start]
          ++ s.flatMap (fun x => [AgentEvent.message_start x, AgentEvent.message_end x])
          ++ tail) := by
  have hpoll : pollSteering cfg O = (s, { O with steering := srest }) := by
    simp [pollSteering, hcfg, consumeSteering, hs]
  refine ⟨hpoll, ?_, ?_⟩
  · obtain ⟨tail, htail⟩ := runTurns_inject fuel cfg tools sys
      { O with steering := srest } ⟨log ++ prompts, prompts⟩ true s
    refine ⟨tail, ?_⟩
    simp only [startRun, hpoll]
    rw [htail]
    simp [List.append_assoc]
  · intro hne hcond
    obtain ⟨tail, htail⟩ := runTurns_inject fuel cfg tools sys
      { O with steering := srest } ⟨log, []⟩ true s
    refine ⟨⟨(runTurns (fuel+1) cfg tools sys { O with steering := srest }
        ⟨log, []⟩ true s).oracle,
      (runTurns (fuel+1) cfg tools sys { O with steering := srest }
        ⟨log, []⟩ true s).st,
      .agent_start :: .turn_start :: (runTurns (fuel+1) cfg tools sys
        { O with steering := srest } ⟨log, []⟩ true s).events,
      (runTurns (fuel+1) cfg tools sys { O with steering := srest }
        ⟨log, []⟩ true s).res⟩, tail, ?_, ?_⟩
    · simp only [continueRun, hne, hcond, hpoll]
      rfl
    · simp only [Out.events]
      rw [htail]
      simp [List.append_assoc]

/-- Witness for C4 at concrete inputs, discharging the hypotheses. -/
theorem claim_C4_witness :
    pollSteering cfgSteer ⟨[⟨[.text "hello"], .stop⟩], [[.user "steer"]], []⟩ =
      ([.user "steer"], ⟨[⟨[.text "hello"], .stop⟩], [], []⟩)
  ∧ (∃ tail, (startRun 5 cfgSteer [] "sys" [.user "go"] []
      ⟨[⟨[.text "hello"], .stop⟩], [[.user "steer"]], []⟩).events =
      [.agent_start, .turn_start]
        ++ [AgentMessage.user "go"].flatMap
            (fun p => [AgentEvent.message_start p, AgentEvent.message_end p])
        ++ [AgentMessage.user "steer"].flatMap
            (fun x => [AgentEvent.message_start x, AgentEvent.message_end x]) ++ tail)
  ∧ (∃ out tail, continueRun 4 cfgSteer [] "sys" [.user "u0"]
        ⟨[⟨[.text "hello"], .stop⟩], [[.user "steer"]], []⟩ = .ok out ∧
      out.events = [.agent_start, .turn_start]
        ++ [AgentMessage.user "steer"].flatMap
            (fun x => [AgentEvent.message_start x, AgentEvent.message_end x]) ++ tail) := by
  have h := claim_C4 3 cfgSteer [] "sys" [.user "go"] [.user "u0"]
    ⟨[⟨[.text "hello"], .stop⟩], [[.user "steer"]], []⟩ [.user "steer"] [] rfl rfl
  exact ⟨h.1, h.2.1, h.2.2 (by decide) (by decide)⟩

/-! ## C2: steering after a tool result skips all remaining tool calls -/

/-- **C2.**  In `executeToolCalls`, when the steering callback is
configured and — after some tool call's result and its advisors — the poll
returns a non-empty list `s`, every remaining tool call is not executed:
each receives a synthesized `toolResult` with `isError = true` and text
`"Skipped due to queued user message."`; the skipped calls produce only
their paired `tool_execution_start`/`tool_execution_end` and
`message_start`/`message_end` events (in particular advisors never run on
skipped results: no advisor event appears and `handleAdvisors` is not
invoked); the dispatcher returns `s` as the steering messages; and the loop
makes `s` the pending batch without polling again (`nextPending`), so the
next turn opens with `turn_start` followed by the injection of `s`.
Source lines 378-392 and 502-539. -/
theorem claim_C2 (fuel : Nat) (cfg : LoopConfig) (tools : List AgentTool)
    (sys : String) (O : Oracle) (S : St) (tc : ToolCall) (rest : List ToolCall)
    (s : List AgentMessage) (srest : List (List AgentMessage))
    (hcfg : cfg.steeringConfigured = true)
    (hok : (handleAdvisors fuel cfg.advisors sys O
      ⟨S.messages ++ [(dispatchToolCall tools tc).2],
       S.newMessages ++ [(dispatchToolCall tools tc).2]⟩ tc
      (dispatchToolCall tools tc).2).res = .ok ())
    (hsteer : (handleAdvisors fuel cfg.advisors sys O
      ⟨S.messages ++ [(dispatchToolCall tools tc).2],
       S.newMessages ++ [(dispatchToolCall tools tc).2]⟩ tc
      (dispatchToolCall tools tc).2).oracle.steering = s :: srest)
    (hs : s ≠ []) :
    (execToolCalls (fuel+1) cfg tools sys O S (tc :: rest) =
      (let h := handleAdvisors fuel cfg.advisors sys O
        ⟨S.messages ++ [(dispatchToolCall tools tc).2],
         S.newMessages ++ [(dispatchToolCall tools tc).2]⟩ tc
        (dispatchToolCall tools tc).2
       ⟨{ h.oracle with steering := srest },
        ⟨h.st.messages ++ rest.map (fun c => .toolResult c.id c.nm skippedText true),
         h.st.newMessages ++ rest.map (fun c => .toolResult c.id c.nm skippedText true)⟩,
        (dispatchToolCall tools tc).1 ++ h.events
          ++ rest.flatMap (fun c =>
              [AgentEvent.tool_execution_start c.id c.nm c.args,
               AgentEvent.tool_execution_end c.id c.nm skippedText true,
               AgentEvent.message_start (.toolResult c.id c.nm skippedText true),
               AgentEvent.message_end (.toolResult c.id c.nm skippedText true)]),
        .ok ((dispatchToolCall tools tc).2 ::
          rest.map (fun c => .toolResult c.id c.nm skippedText true), some s)⟩))
  ∧ (∀ e ∈ rest.flatMap (fun c =>
        [AgentEvent.tool_execution_start c.id c.nm c.args,
         AgentEvent.tool_execution_end c.id c.nm skippedText true,
         AgentEvent.message_start (.toolResult c.id c.nm skippedText true),
         AgentEvent.message_end (.toolResult c.id c.nm skippedText true)]),
      isAdvisorEv e = false)
  ∧ (∀ O', nextPending cfg (some s) O' = (s, O'))
  ∧ (∀ fuel' O' S', ∃ tail,
      (runTurns (fuel'+1) cfg tools sys O' S' false s).events =
        .turn_start :: (s.flatMap
          (fun x => [AgentEvent.message_start x, AgentEvent.message_end x]) ++ tail)) := by
  refine ⟨?_, ?_, ?_, ?_⟩
  · have hcons : consumeSteering (handleAdvisors fuel cfg.advisors sys O
        ⟨S.messages ++ [(dispatchToolCall tools tc).2],
         S.newMessages ++ [(dispatchToolCall tools tc).2]⟩ tc
        (dispatchToolCall tools tc).2).oracle =
        (s, { (handleAdvisors fuel cfg.advisors sys O
          ⟨S.messages ++ [(dispatchToolCall tools tc).2],
           S.newMessages ++ [(dispatchToolCall tools tc).2]⟩ tc
          (dispatchToolCall tools tc).2).oracle with steering := srest }) := by
      simp [consumeSteering, hsteer]
    simp only [execToolCalls, hcfg, if_true, hok, hcons]
    simp [hs, skipToolCall, List.isEmpty_iff, List.flatMap_map, Function.comp]
  · intro e he
    simp only [List.mem_flatMap, List.mem_cons, List.not_mem_nil, or_false] at he
    obtain ⟨c, _, (rfl | rfl | rfl | rfl)⟩ := he <;> rfl
  · intro O'
    simp [nextPending, List.isEmpty_iff, hs]
  · intro fuel' O' S'
    obtain ⟨tail, htail⟩ := runTurns_inject fuel' cfg tools sys O' S' false s
    exact ⟨tail, by simpa using htail⟩

end AgentCore

namespace AgentCore

/-- An oracle whose only content is a queued steering answer. -/
def OSteerPoll : Oracle := ⟨[], [[.user "stop"]], []⟩

/-- Witness for C2: two tool calls `tc-a`, `tc-b`; after `tc-a` the steering
poll returns `[user "stop"]`, so `tc-b` is skipped with the synthetic error
result and the steering messages are returned. -/
theorem claim_C2_witness :
    (execToolCalls 2 cfgSteer [echoToolFx] "sys" OSteerPoll ⟨[], []⟩
        [⟨"tc-a", "echo", "{}"⟩, ⟨"tc-b", "echo", "{}"⟩]).res =
      .ok ([.toolResult "tc-a" "echo" "echoed: x" false,
            .toolResult "tc-b" "echo" skippedText true], some [.user "stop"]) := by
  have h := claim_C2 1 cfgSteer [echoToolFx] "sys" OSteerPoll ⟨[], []⟩
    ⟨"tc-a", "echo", "{}"⟩ [⟨"tc-b", "echo", "{}"⟩] [.user "stop"] []
    rfl (by decide) (by decide) (by decide)
  rw [h.1]
  decide

/-- The tool call used by the C7 witness. -/
def frobCall : ToolCall := ⟨"t1", "frob", "{}"⟩

/-- A tool that throws synchronously. -/
def throwToolFx : AgentTool := ⟨"frob", fun _ => .throwSync "boom"⟩

/-- A tool that rejects asynchronously with the same message. -/
def rejectToolFx : AgentTool := ⟨"frob", fun _ => .rejectAsync "boom"⟩

/-- Witness for C7 at concrete inputs: missing tool, synchronous throw,
sync/async identical shapes, and the dispatcher continuing. -/
theorem claim_C7_witness :
    dispatchToolCall [] frobCall =
      ([.tool_execution_start "t1" "frob" "{}",
        .tool_execution_end "t1" "frob" "Tool frob not found" true,
        .message_start (.toolResult "t1" "frob" "Tool frob not found" true),
        .message_end (.toolResult "t1" "frob" "Tool frob not found" true)],
       .toolResult "t1" "frob" "Tool frob not found" true)
  ∧ dispatchToolCall [throwToolFx] frobCall =
      ([.tool_execution_start "t1" "frob" "{}",
        .tool_execution_end "t1" "frob" "boom" true,
        .message_start (.toolResult "t1" "frob" "boom" true),
        .message_end (.toolResult "t1" "frob" "boom" true)],
       .toolResult "t1" "frob" "boom" true)
  ∧ dispatchToolCall [throwToolFx] frobCall = dispatchToolCall [rejectToolFx] frobCall
  ∧ execToolCalls 2 cfgPlain [throwToolFx] "sys" ⟨[], [], []⟩ ⟨[], []⟩ [frobCall] =
      (let r := execToolCalls 1 cfgPlain [throwToolFx] "sys" ⟨[], [], []⟩
        ⟨[(dispatchToolCall [throwToolFx] frobCall).2],
         [(dispatchToolCall [throwToolFx] frobCall).2]⟩ []
       ⟨r.oracle, r.st, (dispatchToolCall [throwToolFx] frobCall).1 ++ r.events,
        match r.res with
        | .ok (rs, so) => .ok ((dispatchToolCall [throwToolFx] frobCall).2 :: rs, so)
        | .incomplete => .incomplete
        | .fatal msg => .fatal msg⟩) := by
  refine ⟨(claim_C7 [] frobCall).1 rfl,
    (claim_C7 [throwToolFx] frobCall).2.1 throwToolFx "boom" rfl rfl,
    (claim_C7 [throwToolFx] frobCall).2.2.1 [rejectToolFx] throwToolFx rejectToolFx "boom"
      rfl rfl rfl rfl,
    (claim_C7 [throwToolFx] frobCall).2.2.2 0 cfgPlain "sys" ⟨[], [], []⟩ ⟨[], []⟩ [] rfl rfl⟩

end AgentCore

namespace AgentCore

theorem pollSteering_off (cfg : LoopConfig) (O : Oracle)
    (h : cfg.steeringConfigured = false) : pollSteering cfg O = ([], O) := by
  simp [pollSteering, h]

theorem pollFollowUps_off (cfg : LoopConfig) (O : Oracle)
    (h : cfg.followUpConfigured = false) : pollFollowUps cfg O = ([], O) := by
  simp [pollFollowUps, h]

theorem nextPending_off (cfg : LoopConfig) (so : Option (List AgentMessage)) (O : Oracle)
    (h : cfg.steeringConfigured = false) : (nextPending cfg so O).2 = O := by
  rcases so with _ | s
  · simp [nextPending, pollSteering_off, h]
  · simp only [nextPending]
    split
    · simp [pollSteering_off, h]
    · rfl

theorem oraclePres : ∀ fuel : Nat,
    (∀ adv params O, ((runAdvisor fuel adv params O).1.steering = O.steering ∧
        (runAdvisor fuel adv params O).1.followUps = O.followUps))
  ∧ (∀ advisors sys O S tc trm,
        ((handleAdvisors fuel advisors sys O S tc trm).oracle.steering = O.steering ∧
         (handleAdvisors fuel advisors sys O S tc trm).oracle.followUps = O.followUps))
  ∧ (∀ cfg tools sys O S tcs, cfg.steeringConfigured = false →
        ((execToolCalls fuel cfg tools sys O S tcs).oracle.steering = O.steering ∧
         (execToolCalls fuel cfg tools sys O S tcs).oracle.followUps = O.followUps))
  ∧ (∀ cfg tools sys O S first pending, cfg.steeringConfigured = false →
        cfg.followUpConfigured = false →
        ((runTurns fuel cfg tools sys O S first pending).oracle.steering = O.steering ∧
         (runTurns fuel cfg tools sys O S first pending).oracle.followUps = O.followUps))
  ∧ (∀ cfg tools sys prompts log O, cfg.steeringConfigured = false →
        cfg.followUpConfigured = false →
        ((startRun fuel cfg tools sys prompts log O).oracle.steering = O.steering ∧
         (startRun fuel cfg tools sys prompts log O).oracle.followUps = O.followUps)) := by
  intro fuel
  induction fuel with
  | zero =>
    refine ⟨?_, ?_, ?_, ?_, ?_⟩ <;> intros <;>
      simp [runAdvisor, handleAdvisors, execToolCalls, runTurns, startRun]
  | succ n ih =>
    obtain ⟨iha, ihh, ihe, iht, ihs⟩ := ih
    have hA : ∀ adv params O, ((runAdvisor (n+1) adv params O).1.steering = O.steering ∧
        (runAdvisor (n+1) adv params O).1.followUps = O.followUps) := by
      intro adv params O
      rcases hcc : adv.createContext params with e | ⟨sysP, prompts⟩
      · simp [runAdvisor, hcc]
      · have h := ihs (advisorLoopConfig adv) adv.tools sysP prompts [] O rfl rfl
        rcases hres : (startRun n (advisorLoopConfig adv) adv.tools sysP prompts [] O).res
          with _ | msg | u
        · simp only [runAdvisor, hcc, hres]
          exact ⟨h.1, h.2⟩
        · simp only [runAdvisor, hcc, hres]
          exact ⟨h.1, h.2⟩
        · simp only [runAdvisor, hcc, hres]
          split
          · exact ⟨h.1, h.2⟩
          · exact ⟨h.1, h.2⟩
    have hH : ∀ advisors sys O S tc trm,
        ((handleAdvisors (n+1) advisors sys O S tc trm).oracle.steering = O.steering ∧
         (handleAdvisors (n+1) advisors sys O S tc trm).oracle.followUps = O.followUps) := by
      intro advisors sys O S tc trm
      cases advisors with
      | nil => simp [handleAdvisors]
      | cons adv rest =>
        rcases htr : adv.trigger ⟨S.messages, tc.nm, tc.args, trm⟩ with e | b
        · simp [handleAdvisors, htr]
        · cases b with
          | false =>
            simp only [handleAdvisors, htr]
            exact ihh rest sys O S tc trm
          | true =>
            rcases hres : (runAdvisor n adv ⟨sys, S.messages, tc.nm, tc.args, trm⟩ O).2.2
              with _ | msg | om
            · simp only [handleAdvisors, htr, hres]
              exact ⟨(iha adv _ O).1, (iha adv _ O).2⟩
            · simp only [handleAdvisors, htr, hres]
              exact ⟨(iha adv _ O).1, (iha adv _ O).2⟩
            · rcases om with _ | ⟨c, msg⟩
              · simp only [handleAdvisors, htr, hres]
                exact ⟨(ihh rest sys _ S tc trm).1.trans (iha adv _ O).1,
                       (ihh rest sys _ S tc trm).2.trans (iha adv _ O).2⟩
              · simp only [handleAdvisors, htr, hres]
                exact ⟨(ihh rest sys _ _ tc trm).1.trans (iha adv _ O).1,
                       (ihh rest sys _ _ tc trm).2.trans (iha adv _ O).2⟩
    have hE : ∀ cfg tools sys O S tcs, cfg.steeringConfigured = false →
        ((execToolCalls (n+1) cfg tools sys O S tcs).oracle.steering = O.steering ∧
         (execToolCalls (n+1) cfg tools sys O S tcs).oracle.followUps = O.followUps) := by
      intro cfg tools sys O S tcs hflag
      cases tcs with
      | nil => simp [execToolCalls]
      | cons tc rest =>
        rcases hres : (handleAdvisors n cfg.advisors sys O
            ⟨S.messages ++ [(dispatchToolCall tools tc).2],
             S.newMessages ++ [(dispatchToolCall tools tc).2]⟩ tc
            (dispatchToolCall tools tc).2).res with _ | msg | u
        · simp only [execToolCalls, hres]
          exact ⟨(ihh _ _ _ _ _ _).1, (ihh _ _ _ _ _ _).2⟩
        · simp only [execToolCalls, hres]
          exact ⟨(ihh _ _ _ _ _ _).1, (ihh _ _ _ _ _ _).2⟩
        · simp only [execToolCalls, hres, hflag, Bool.false_eq_true, if_false]
          exact ⟨(ihe cfg tools sys _ _ rest hflag).1.trans (ihh _ _ _ _ _ _).1,
                 (ihe cfg tools sys _ _ rest hflag).2.trans (ihh _ _ _ _ _ _).2⟩
    have hT : ∀ cfg tools sys O S first pending, cfg.steeringConfigured = false →
        cfg.followUpConfigured = false →
        ((runTurns (n+1) cfg tools sys O S first pending).oracle.steering = O.steering ∧
         (runTurns (n+1) cfg tools sys O S first pending).oracle.followUps = O.followUps) := by
      intro cfg tools sys O S first pending hst hfu
      obtain ⟨llm, steer, fus⟩ := O
      cases llm with
      | nil => simp [runTurns]
      | cons m rest =>
        by_cases hhalt : haltStop m.stopReason = true
        · simp [runTurns, hhalt]
        · by_cases htcs : (toolCallsOf m).isEmpty = true
          · simp only [runTurns, hhalt, htcs, pollSteering_off _ _ hst,
              pollFollowUps_off _ _ hfu, Bool.false_eq_true, if_false, if_true,
              List.isEmpty_nil]
            simp
          · rcases hres : (execToolCalls n cfg tools sys
                ⟨rest, steer, fus⟩
                ⟨S.messages ++ pending ++ [.assistant m],
                 S.newMessages ++ pending ++ [.assistant m]⟩ (toolCallsOf m)).res
              with _ | msg | ru
            · simp only [runTurns, hhalt, htcs, Bool.false_eq_true, if_false, hres]
              exact ⟨(ihe _ _ _ _ _ _ hst).1, (ihe _ _ _ _ _ _ hst).2⟩
            · simp only [runTurns, hhalt, htcs, Bool.false_eq_true, if_false, hres]
              exact ⟨(ihe _ _ _ _ _ _ hst).1, (ihe _ _ _ _ _ _ hst).2⟩
            · obtain ⟨results, steerOpt⟩ := ru
              simp only [runTurns, hhalt, htcs, Bool.false_eq_true, if_false, hres]
              constructor
              · rw [(iht _ _ _ _ _ _ _ hst hfu).1, nextPending_off _ _ _ hst]
                exact (ihe _ _ _ _ _ _ hst).1
              · rw [(iht _ _ _ _ _ _ _ hst hfu).2, nextPending_off _ _ _ hst]
                exact (ihe _ _ _ _ _ _ hst).2
    have hS : ∀ cfg tools sys prompts log O, cfg.steeringConfigured = false →
        cfg.followUpConfigured = false →
        ((startRun (n+1) cfg tools sys prompts log O).oracle.steering = O.steering ∧
         (startRun (n+1) cfg tools sys prompts log O).oracle.followUps = O.followUps) := by
      intro cfg tools sys prompts log O hst hfu
      simp only [startRun, pollSteering_off _ _ hst]
      exact iht cfg tools sys O _ true [] hst hfu
    exact ⟨hA, hH, hE, hT, hS⟩

end AgentCore

namespace AgentCore

/-! ## C10: the nested advisor run's configuration -/

/-- A no-toolcall assistant response for the C10 witness. -/
def plainAnswer : AssistantMsg := ⟨[.text "verdict"], .stop⟩

/-- **C10.**  A nested advisor run is configured only with the advisor's own
settings (`advisorLoopConfig`, source lines 471-478): its model, API-key
settings and its *own* nested advisors; the parent's `getSteeringMessages`,
`getFollowUpMessages`, `transformContext` and advisors are never passed
(the child's steering and follow-up callbacks are absent).  Consequently a
`runAdvisor` invocation never consumes a steering or follow-up poll answer
(at any nesting depth), and the nested run ends its turn loop — `turn_end`
then `agent_end` — as soon as its assistant responds without tool calls.
(`convertToLlm` — the advisor's own or the default — and the reasoning
level only shape the LLM input and are outside the control-flow model.) -/
theorem claim_C10 (adv : AdvisorCfg) :
    (advisorLoopConfig adv).model = adv.model
  ∧ (advisorLoopConfig adv).apiKey = adv.apiKey
  ∧ (advisorLoopConfig adv).getApiKey = adv.getApiKey
  ∧ (advisorLoopConfig adv).advisors = adv.advisors
  ∧ (advisorLoopConfig adv).steeringConfigured = false
  ∧ (advisorLoopConfig adv).followUpConfigured = false
  ∧ (∀ fuel params O, (runAdvisor fuel adv params O).1.steering = O.steering
      ∧ (runAdvisor fuel adv params O).1.followUps = O.followUps)
  ∧ (∀ fuel tools sys O S first (m : AssistantMsg) llmRest,
      O.llm = m :: llmRest → haltStop m.stopReason = false → toolCallsOf m = [] →
      runTurns (fuel+1) (advisorLoopConfig adv) tools sys O S first [] =
        ⟨{ O with llm := llmRest },
         ⟨S.messages ++ [.assistant m], S.newMessages ++ [.assistant m]⟩,
         (if first then [] else [.turn_start])
           ++ [.message_start (.assistant m), .message_end (.assistant m),
               .turn_end (.assistant m) [], .agent_end (S.newMessages ++ [.assistant m])],
         .ok ()⟩) := by
  refine ⟨rfl, rfl, rfl, rfl, rfl, rfl, ?_, ?_⟩
  · intro fuel params O
    exact (oraclePres fuel).1 adv params O
  · intro fuel tools sys O S first m llmRest hllm hhalt htcs
    obtain ⟨llm, steer, fu⟩ := O
    simp only [Oracle.llm] at hllm
    subst hllm
    simp [runTurns, hhalt, htcs, pollSteering, pollFollowUps, advisorLoopConfig]

/-- Witness for C10 at a concrete advisor and environment. -/
theorem claim_C10_witness :
    (runAdvisor 3 trigBoomAdvisor
        ⟨"sys", [], "echo", "{}", .toolResult "t1" "echo" "x" false⟩
        ⟨[plainAnswer], [[.user "q"]], [[.user "f"]]⟩).1.steering = [[.user "q"]]
  ∧ (runAdvisor 3 trigBoomAdvisor
        ⟨"sys", [], "echo", "{}", .toolResult "t1" "echo" "x" false⟩
        ⟨[plainAnswer], [[.user "q"]], [[.user "f"]]⟩).1.followUps = [[.user "f"]]
  ∧ runTurns 1 (advisorLoopConfig trigBoomAdvisor) [] "sys"
      ⟨[plainAnswer], [[.user "q"]], [[.user "f"]]⟩ ⟨[], []⟩ true [] =
      ⟨⟨[], [[.user "q"]], [[.user "f"]]⟩,
       ⟨[.assistant plainAnswer], [.assistant plainAnswer]⟩,
       [.message_start (.assistant plainAnswer), .message_end (.assistant plainAnswer),
        .turn_end (.assistant plainAnswer) [], .agent_end [.assistant plainAnswer]],
       .ok ()⟩ := by
  have h := claim_C10 trigBoomAdvisor
  refine ⟨(h.2.2.2.2.2.2.1 3 _ _).1, (h.2.2.2.2.2.2.1 3 _ _).2, ?_⟩
  have h8 := h.2.2.2.2.2.2.2 0 [] "sys" ⟨[plainAnswer], [[.user "q"]], [[.user "f"]]⟩
    ⟨[], []⟩ true plainAnswer [] rfl rfl rfl
  simpa using h8

end AgentCore

namespace AgentCore

/-- Every phase of the loop only appends to the context's message log and to
the `newMessages` accumulator, and it appends the same messages to both. -/
theorem stAppend : ∀ fuel : Nat,
    (∀ advisors sys O S tc trm, ∃ Δ,
        (handleAdvisors fuel advisors sys O S tc trm).st.messages = S.messages ++ Δ ∧
        (handleAdvisors fuel advisors sys O S tc trm).st.newMessages = S.newMessages ++ Δ)
  ∧ (∀ cfg tools sys O S tcs, ∃ Δ,
        (execToolCalls fuel cfg tools sys O S tcs).st.messages = S.messages ++ Δ ∧
        (execToolCalls fuel cfg tools sys O S tcs).st.newMessages = S.newMessages ++ Δ)
  ∧ (∀ cfg tools sys O S first pending, ∃ Δ,
        (runTurns fuel cfg tools sys O S first pending).st.messages = S.messages ++ Δ ∧
        (runTurns fuel cfg tools sys O S first pending).st.newMessages =
          S.newMessages ++ Δ) := by
  intro fuel
  induction fuel with
  | zero =>
    refine ⟨?_, ?_, ?_⟩ <;> intros <;>
      exact ⟨[], by simp [handleAdvisors, execToolCalls, runTurns]⟩
  | succ n ih =>
    obtain ⟨ihh, ihe, iht⟩ := ih
    have hH : ∀ advisors sys O S tc trm, ∃ Δ,
        (handleAdvisors (n+1) advisors sys O S tc trm).st.messages = S.messages ++ Δ ∧
        (handleAdvisors (n+1) advisors sys O S tc trm).st.newMessages =
          S.newMessages ++ Δ := by
      intro advisors sys O S tc trm
      cases advisors with
      | nil => exact ⟨[], by simp [handleAdvisors]⟩
      | cons adv rest =>
        rcases htr : adv.trigger ⟨S.messages, tc.nm, tc.args, trm⟩ with e | b
        · exact ⟨[], by simp [handleAdvisors, htr]⟩
        · cases b with
          | false =>
            obtain ⟨Δ, h1, h2⟩ := ihh rest sys O S tc trm
            exact ⟨Δ, by simp only [handleAdvisors, htr]; exact ⟨h1, h2⟩⟩
          | true =>
            rcases hres : (runAdvisor n adv ⟨sys, S.messages, tc.nm, tc.args, trm⟩ O).2.2
              with _ | msg | om
            · exact ⟨[], by simp [handleAdvisors, htr, hres]⟩
            · exact ⟨[], by simp [handleAdvisors, htr, hres]⟩
            · rcases om with _ | ⟨c, msg⟩
              · obtain ⟨Δ, h1, h2⟩ := ihh rest sys
                  (runAdvisor n adv ⟨sys, S.messages, tc.nm, tc.args, trm⟩ O).1 S tc trm
                exact ⟨Δ, by simp only [handleAdvisors, htr, hres]; exact ⟨h1, h2⟩⟩
              · obtain ⟨Δ, h1, h2⟩ := ihh rest sys
                  (runAdvisor n adv ⟨sys, S.messages, tc.nm, tc.args, trm⟩ O).1
                  ⟨S.messages ++ [msg], S.newMessages ++ [msg]⟩ tc trm
                refine ⟨msg :: Δ, ?_, ?_⟩
                · simp only [handleAdvisors, htr, hres]
                  rw [h1]
                  simp
                · simp only [handleAdvisors, htr, hres]
                  rw [h2]
                  simp
    have hE : ∀ cfg tools sys O S tcs, ∃ Δ,
        (execToolCalls (n+1) cfg tools sys O S tcs).st.messages = S.messages ++ Δ ∧
        (execToolCalls (n+1) cfg tools sys O S tcs).st.newMessages =
          S.newMessages ++ Δ := by
      intro cfg tools sys O S tcs
      cases tcs with
      | nil => exact ⟨[], by simp [execToolCalls]⟩
      | cons tc rest =>
        obtain ⟨Δh, hh1, hh2⟩ := ihh cfg.advisors sys O
          ⟨S.messages ++ [(dispatchToolCall tools tc).2],
           S.newMessages ++ [(dispatchToolCall tools tc).2]⟩ tc (dispatchToolCall tools tc).2
        rcases hres : (handleAdvisors n cfg.advisors sys O
            ⟨S.messages ++ [(dispatchToolCall tools tc).2],
             S.newMessages ++ [(dispatchToolCall tools tc).2]⟩ tc
            (dispatchToolCall tools tc).2).res with _ | msg | u
        · refine ⟨(dispatchToolCall tools tc).2 :: Δh, ?_, ?_⟩
          · simp only [execToolCalls, hres]
            rw [hh1]
            simp
          · simp only [execToolCalls, hres]
            rw [hh2]
            simp
        · refine ⟨(dispatchToolCall tools tc).2 :: Δh, ?_, ?_⟩
          · simp only [execToolCalls, hres]
            rw [hh1]
            simp
          · simp only [execToolCalls, hres]
            rw [hh2]
            simp
        · by_cases hcfg : cfg.steeringConfigured = true
          · rcases hcons : consumeSteering (handleAdvisors n cfg.advisors sys O
                ⟨S.messages ++ [(dispatchToolCall tools tc).2],
                 S.newMessages ++ [(dispatchToolCall tools tc).2]⟩ tc
                (dispatchToolCall tools tc).2).oracle with ⟨sl, O'⟩
            by_cases hsl : sl.isEmpty = true
            · obtain ⟨Δr, hr1, hr2⟩ := ihe cfg tools sys O'
                (handleAdvisors n cfg.advisors sys O
                  ⟨S.messages ++ [(dispatchToolCall tools tc).2],
                   S.newMessages ++ [(dispatchToolCall tools tc).2]⟩ tc
                  (dispatchToolCall tools tc).2).st rest
              refine ⟨(dispatchToolCall tools tc).2 :: (Δh ++ Δr), ?_, ?_⟩
              · simp only [execToolCalls, hres, hcfg, if_true, hcons, hsl]
                rw [hr1, hh1]
                simp
              · simp only [execToolCalls, hres, hcfg, if_true, hcons, hsl]
                rw [hr2, hh2]
                simp
            · refine ⟨(dispatchToolCall tools tc).2 ::
                  (Δh ++ (rest.map skipToolCall).map Prod.snd), ?_, ?_⟩
              · simp only [execToolCalls, hres, hcfg, if_true, hcons, hsl]
                rw [hh1]
                simp
              · simp only [execToolCalls, hres, hcfg, if_true, hcons, hsl]
                rw [hh2]
                simp
          · obtain ⟨Δr, hr1, hr2⟩ := ihe cfg tools sys
              (handleAdvisors n cfg.advisors sys O
                ⟨S.messages ++ [(dispatchToolCall tools tc).2],
                 S.newMessages ++ [(dispatchToolCall tools tc).2]⟩ tc
                (dispatchToolCall tools tc).2).oracle
              (handleAdvisors n cfg.advisors sys O
                ⟨S.messages ++ [(dispatchToolCall tools tc).2],
                 S.newMessages ++ [(dispatchToolCall tools tc).2]⟩ tc
                (dispatchToolCall tools tc).2).st rest
            refine ⟨(dispatchToolCall tools tc).2 :: (Δh ++ Δr), ?_, ?_⟩
            · simp only [execToolCalls, hres, hcfg, Bool.false_eq_true, if_false]
              rw [hr1, hh1]
              simp
            · simp only [execToolCalls, hres, hcfg, Bool.false_eq_true, if_false]
              rw [hr2, hh2]
              simp
    have hT : ∀ cfg tools sys O S first pending, ∃ Δ,
        (runTurns (n+1) cfg tools sys O S first pending).st.messages = S.messages ++ Δ ∧
        (runTurns (n+1) cfg tools sys O S first pending).st.newMessages =
          S.newMessages ++ Δ := by
      intro cfg tools sys O S first pending
      obtain ⟨llm, steer, fus⟩ := O
      cases llm with
      | nil => exact ⟨pending, by simp [runTurns]⟩
      | cons m rest =>
        by_cases hhalt : haltStop m.stopReason = true
        · exact ⟨pending ++ [.assistant m], by simp [runTurns, hhalt]⟩
        · by_cases htcs : (toolCallsOf m).isEmpty = true
          · rcases hp1 : pollSteering cfg ⟨rest, steer, fus⟩ with ⟨p1v, p1O⟩
            by_cases hp1e : p1v.isEmpty = true
            · rcases hp2 : pollFollowUps cfg p1O with ⟨p2v, p2O⟩
              by_cases hp2e : p2v.isEmpty = true
              · exact ⟨pending ++ [.assistant m],
                  by simp [runTurns, hhalt, htcs, hp1, hp1e, hp2, hp2e]⟩
              · obtain ⟨Δr, hr1, hr2⟩ := iht cfg tools sys p2O
                  ⟨S.messages ++ pending ++ [.assistant m],
                   S.newMessages ++ pending ++ [.assistant m]⟩ false p2v
                refine ⟨pending ++ [.assistant m] ++ Δr, ?_, ?_⟩
                · simp only [runTurns, hhalt, htcs, hp1, hp1e, hp2, hp2e,
                    Bool.false_eq_true, if_false, if_true]
                  rw [hr1]
                  simp
                · simp only [runTurns, hhalt, htcs, hp1, hp1e, hp2, hp2e,
                    Bool.false_eq_true, if_false, if_true]
                  rw [hr2]
                  simp
            · obtain ⟨Δr, hr1, hr2⟩ := iht cfg tools sys p1O
                ⟨S.messages ++ pending ++ [.assistant m],
                 S.newMessages ++ pending ++ [.assistant m]⟩ false p1v
              refine ⟨pending ++ [.assistant m] ++ Δr, ?_, ?_⟩
              · simp only [runTurns, hhalt, htcs, hp1, hp1e,
                  Bool.false_eq_true, if_false, if_true]
                rw [hr1]
                simp
              · simp only [runTurns, hhalt, htcs, hp1, hp1e,
                  Bool.false_eq_true, if_false, if_true]
                rw [hr2]
                simp
          · obtain ⟨Δe, he1, he2⟩ := ihe cfg tools sys ⟨rest, steer, fus⟩
              ⟨S.messages ++ pending ++ [.assistant m],
               S.newMessages ++ pending ++ [.assistant m]⟩ (toolCallsOf m)
            rcases hres : (execToolCalls n cfg tools sys ⟨rest, steer, fus⟩
                ⟨S.messages ++ pending ++ [.assistant m],
                 S.newMessages ++ pending ++ [.assistant m]⟩ (toolCallsOf m)).res
              with _ | msg | ru
            · refine ⟨pending ++ [.assistant m] ++ Δe, ?_, ?_⟩
              · simp only [runTurns, hhalt, htcs, Bool.false_eq_true, if_false, hres]
                rw [he1]
                simp
              · simp only [runTurns, hhalt, htcs, Bool.false_eq_true, if_false, hres]
                rw [he2]
                simp
            · refine ⟨pending ++ [.assistant m] ++ Δe, ?_, ?_⟩
              · simp only [runTurns, hhalt, htcs, Bool.false_eq_true, if_false, hres]
                rw [he1]
                simp
              · simp only [runTurns, hhalt, htcs, Bool.false_eq_true, if_false, hres]
                rw [he2]
                simp
            · obtain ⟨results, steerOpt⟩ := ru
              obtain ⟨Δr, hr1, hr2⟩ := iht cfg tools sys
                (nextPending cfg steerOpt (execToolCalls n cfg tools sys ⟨rest, steer, fus⟩
                  ⟨S.messages ++ pending ++ [.assistant m],
                   S.newMessages ++ pending ++ [.assistant m]⟩ (toolCallsOf m)).oracle).2
                (execToolCalls n cfg tools sys ⟨rest, steer, fus⟩
                  ⟨S.messages ++ pending ++ [.assistant m],
                   S.newMessages ++ pending ++ [.assistant m]⟩ (toolCallsOf m)).st false
                (nextPending cfg steerOpt (execToolCalls n cfg tools sys ⟨rest, steer, fus⟩
                  ⟨S.messages ++ pending ++ [.assistant m],
                   S.newMessages ++ pending ++ [.assistant m]⟩ (toolCallsOf m)).oracle).1
              refine ⟨pending ++ [.assistant m] ++ Δe ++ Δr, ?_, ?_⟩
              · simp only [runTurns, hhalt, htcs, Bool.false_eq_true, if_false, hres]
                rw [hr1, he1]
                simp
              · simp only [runTurns, hhalt, htcs, Bool.false_eq_true, if_false, hres]
                rw [hr2, he2]
                simp
    exact ⟨hH, hE, hT⟩

end AgentCore

namespace AgentCore

/-! ## C9 (corrected): which entry point mutates the caller's message array -/

/-- **C9 counterexample.**  The claim says both entry points mutate the
caller-supplied context's message log in place.  It is false for the start
entry: `agentLoop` builds its run context with a fresh array
(`messages: [...context.messages, ...prompts]`, source line 43), so the
messages appended during the run never reach the caller's array.  On this
concrete run the loop appended a prompt and an assistant answer, yet the
caller's array content after the run is still the original empty list. -/
theorem claim_C9_counterexample :
    (agentLoopEntry 5 cfgPlain [] "sys" [.user "hi"] [] OHello).1.res = .ok ()
  ∧ (agentLoopEntry 5 cfgPlain [] "sys" [.user "hi"] [] OHello).1.st.newMessages
      = [.user "hi", .assistant ⟨[.text "hello"], .stop⟩]
  ∧ (agentLoopEntry 5 cfgPlain [] "sys" [.user "hi"] [] OHello).2 = [] := by
  decide

/-- **C9 (amended).**  Only the continue entry runs on the caller's own
array: `agentLoopContinue` shallow-copies the context (source line 85), so
the run appends into the caller's array and after the run the caller's
array holds the original log followed by exactly the messages appended
during the run (`newMessages`).  The start entry instead copies the
caller's array (source line 43) and appends prompts and run messages to the
copy: the caller-supplied array is left unchanged. -/
theorem claim_C9 (fuel : Nat) (cfg : LoopConfig) (tools : List AgentTool)
    (sys : String) (prompts log : List AgentMessage) (O : Oracle) :
    (agentLoopEntry fuel cfg tools sys prompts log O).2 = log
  ∧ (∀ r, agentLoopContinueEntry fuel cfg tools sys log O = .ok r →
      r.2 = r.1.st.messages ∧ r.1.st.messages = log ++ r.1.st.newMessages) := by
  constructor
  · rfl
  · intro r hr
    rcases hc : continueRun fuel cfg tools sys log O with e | out
    · rw [agentLoopContinueEntry, hc] at hr
      exact absurd hr (by simp [Except.map])
    · rw [agentLoopContinueEntry, hc] at hr
      simp only [Except.map] at hr
      injection hr with hr'
      subst hr'
      refine ⟨rfl, ?_⟩
      simp only [continueRun] at hc
      by_cases h1 : log.isEmpty = true
      · simp [h1] at hc
      · simp only [h1, Bool.false_eq_true, if_false] at hc
        by_cases h2 : (log.getLast?.map fun m =>
            match m with | .assistant _ => true | _ => false).getD false = true
        · simp [h2] at hc
        · simp only [h2, Bool.false_eq_true, if_false, Except.ok.injEq] at hc
          obtain ⟨Δ, hm, hnm⟩ := (stAppend fuel).2.2 cfg tools sys
            (pollSteering cfg O).2 ⟨log, []⟩ true (pollSteering cfg O).1
          rw [← hc]
          simp only []
          rw [hm, hnm]
          simp

/-- Witness for C9: a concrete continue-entry run whose caller array ends up
holding the original log plus the run's appended messages. -/
theorem claim_C9_witness :
    (agentLoopEntry 5 cfgPlain [] "sys" [.user "hi"] [] OHello).2 = []
  ∧ ((agentLoopContinueEntry 3 cfgPlain [] "sys" [.user "u0"] OHello =
        .ok (⟨⟨[], [], []⟩,
          ⟨[.user "u0", .assistant ⟨[.text "hello"], .stop⟩],
           [.assistant ⟨[.text "hello"], .stop⟩]⟩,
          [.agent_start, .turn_start,
           .message_start (.assistant ⟨[.text "hello"], .stop⟩),
           .message_end (.assistant ⟨[.text "hello"], .stop⟩),
           .turn_end (.assistant ⟨[.text "hello"], .stop⟩) [],
           .agent_end [.assistant ⟨[.text "hello"], .stop⟩]],
          .ok ()⟩,
         [.user "u0", .assistant ⟨[.text "hello"], .stop⟩])) ∧
      [.user "u0", .assistant ⟨[.text "hello"], .stop⟩] =
        [AgentMessage.user "u0"] ++ [.assistant ⟨[.text "hello"], .stop⟩]) := by
  have h := claim_C9 3 cfgPlain [] "sys" [.user "hi"] [.user "u0"] OHello
  have hok : agentLoopContinueEntry 3 cfgPlain [] "sys" [.user "u0"] OHello =
      .ok (⟨⟨[], [], []⟩,
        ⟨[.user "u0", .assistant ⟨[.text "hello"], .stop⟩],
         [.assistant ⟨[.text "hello"], .stop⟩]⟩,
        [.agent_start, .turn_start,
         .message_start (.assistant ⟨[.text "hello"], .stop⟩),
         .message_end (.assistant ⟨[.text "hello"], .stop⟩),
         .turn_end (.assistant ⟨[.text "hello"], .stop⟩) [],
         .agent_end [.assistant ⟨[.text "hello"], .stop⟩]],
        .ok ()⟩,
       [.user "u0", .assistant ⟨[.text "hello"], .stop⟩]) := by rfl
  exact ⟨(claim_C9 5 cfgPlain [] "sys" [.user "hi"] [] OHello).1, hok, (h.2 _ hok).2⟩

end AgentCore

namespace AgentCore

/-- Number of (top-level) `agent_end` events in a list.  An `agent_end` of a
nested advisor run is wrapped in `advisor_event` and therefore not counted. -/
def countAgentEnd (evs : List AgentEvent) : Nat :=
  evs.countP isAgentEndEv

theorem countAE_append (a b : List AgentEvent) :
    countAgentEnd (a ++ b) = countAgentEnd a + countAgentEnd b :=
  List.countP_append _ _ _

theorem countAE_cons (e : AgentEvent) (l : List AgentEvent) :
    countAgentEnd (e :: l) = countAgentEnd l + (if isAgentEndEv e then 1 else 0) :=
  List.countP_cons _ _ _

theorem countAE_nil : countAgentEnd [] = 0 := rfl

theorem countAE_zero_iff (l : List AgentEvent) :
    countAgentEnd l = 0 ↔ ∀ e ∈ l, isAgentEndEv e = false := by
  simp [countAgentEnd, List.countP_eq_zero]

theorem countAE_inj (pending : List AgentMessage) :
    countAgentEnd (pending.flatMap
      fun m => [AgentEvent.message_start m, AgentEvent.message_end m]) = 0 := by
  rw [countAE_zero_iff]
  intro e he
  simp only [List.mem_flatMap, List.mem_cons, List.not_mem_nil, or_false] at he
  obtain ⟨m, _, (rfl | rfl)⟩ := he <;> rfl

theorem countAE_wrapped (l : List AgentEvent) (n : String) :
    countAgentEnd (l.map (AgentEvent.advisor_event n)) = 0 := by
  rw [countAE_zero_iff]
  intro e he
  simp only [List.mem_map] at he
  obtain ⟨x, _, rfl⟩ := he
  rfl

theorem countAE_dispatch (tools : List AgentTool) (tc : ToolCall) :
    countAgentEnd (dispatchToolCall tools tc).1 = 0 := by
  rw [countAE_zero_iff]
  intro e he
  rcases hl : toolLookup tools tc.nm with _ | t
  · simp only [dispatchToolCall, hl, List.mem_cons, List.map_nil, List.cons_append,
      List.nil_append, List.not_mem_nil, or_false] at he
    rcases he with rfl | rfl | rfl | rfl <;> rfl
  · rcases hx : t.exec tc with ⟨updates, text⟩ | msg | msg
    all_goals simp only [dispatchToolCall, hl, hx, List.mem_cons, List.mem_append,
      List.mem_map, List.map_nil, List.cons_append, List.nil_append,
      List.mem_singleton, List.not_mem_nil, or_false] at he
    · rcases he with rfl | ⟨u, _, rfl⟩ | rfl | rfl | rfl <;> rfl
    · rcases he with rfl | rfl | rfl | rfl <;> rfl
    · rcases he with rfl | rfl | rfl | rfl <;> rfl

theorem countAE_skips (rest : List ToolCall) :
    countAgentEnd ((rest.map skipToolCall).flatMap Prod.fst) = 0 := by
  rw [countAE_zero_iff]
  intro e he
  simp only [List.flatMap_map, List.mem_flatMap, skipToolCall, List.mem_cons,
    List.not_mem_nil, or_false] at he
  obtain ⟨c, _, (rfl | rfl | rfl | rfl)⟩ := he <;> rfl

end AgentCore

namespace AgentCore

/-- Across the mutually recursive phases: the tool dispatcher and the advisor
runner never emit a bare `agent_end`; the turn loop, when it completes,
emits exactly one `agent_end` — carrying the final `newMessages` — as its
very last event, and emits none when it does not complete. -/
theorem agentEndCount : ∀ fuel : Nat,
    (∀ adv params O, countAgentEnd (runAdvisor fuel adv params O).2.1 = 0)
  ∧ (∀ advisors sys O S tc trm,
      countAgentEnd (handleAdvisors fuel advisors sys O S tc trm).events = 0)
  ∧ (∀ cfg tools sys O S tcs,
      countAgentEnd (execToolCalls fuel cfg tools sys O S tcs).events = 0)
  ∧ (∀ cfg tools sys O S first pending,
      ((runTurns fuel cfg tools sys O S first pending).res = .ok () →
        ∃ pre, (runTurns fuel cfg tools sys O S first pending).events =
            pre ++ [.agent_end (runTurns fuel cfg tools sys O S first pending).st.newMessages]
          ∧ countAgentEnd pre = 0)
    ∧ ((runTurns fuel cfg tools sys O S first pending).res ≠ .ok () →
        countAgentEnd (runTurns fuel cfg tools sys O S first pending).events = 0)) := by
  intro fuel
  induction fuel with
  | zero =>
    refine ⟨?_, ?_, ?_, ?_⟩ <;> intros <;>
      simp [runAdvisor, handleAdvisors, execToolCalls, runTurns, countAgentEnd]
  | succ n ih =>
    obtain ⟨iha, ihh, ihe, iht⟩ := ih
    have hA : ∀ adv params O, countAgentEnd (runAdvisor (n+1) adv params O).2.1 = 0 := by
      intro adv params O
      rcases hcc : adv.createContext params with e | ⟨sysP, prompts⟩
      · simp [runAdvisor, hcc, countAgentEnd, isAgentEndEv]
      · rcases hres : (startRun n (advisorLoopConfig adv) adv.tools sysP prompts [] O).res
          with _ | msg | u
        · simp only [runAdvisor, hcc, hres]
          exact countAE_wrapped _ _
        · simp only [runAdvisor, hcc, hres]
          exact countAE_wrapped _ _
        · simp only [runAdvisor, hcc, hres]
          split
          · exact countAE_wrapped _ _
          · exact countAE_wrapped _ _
    have hH : ∀ advisors sys O S tc trm,
        countAgentEnd (handleAdvisors (n+1) advisors sys O S tc trm).events = 0 := by
      intro advisors sys O S tc trm
      cases advisors with
      | nil => simp [handleAdvisors, countAgentEnd]
      | cons adv rest =>
        rcases htr : adv.trigger ⟨S.messages, tc.nm, tc.args, trm⟩ with e | b
        · simp [handleAdvisors, htr, countAgentEnd]
        · cases b with
          | false =>
            simp only [handleAdvisors, htr]
            exact ihh rest sys O S tc trm
          | true =>
            rcases hres : (runAdvisor n adv ⟨sys, S.messages, tc.nm, tc.args, trm⟩ O).2.2
              with _ | msg | om
            · simp only [handleAdvisors, htr, hres]
              simp [countAE_cons, isAgentEndEv,
                iha adv ⟨sys, S.messages, tc.nm, tc.args, trm⟩ O]
            · simp only [handleAdvisors, htr, hres]
              simp [countAE_cons, isAgentEndEv,
                iha adv ⟨sys, S.messages, tc.nm, tc.args, trm⟩ O]
            · rcases om with _ | ⟨c, msg⟩
              · simp only [handleAdvisors, htr, hres]
                simp [countAE_cons, countAE_append, isAgentEndEv,
                  iha adv ⟨sys, S.messages, tc.nm, tc.args, trm⟩ O,
                  ihh rest sys
                    (runAdvisor n adv ⟨sys, S.messages, tc.nm, tc.args, trm⟩ O).1 S tc trm]
              · simp only [handleAdvisors, htr, hres]
                simp [countAE_cons, countAE_append, isAgentEndEv,
                  iha adv ⟨sys, S.messages, tc.nm, tc.args, trm⟩ O,
                  ihh rest sys
                    (runAdvisor n adv ⟨sys, S.messages, tc.nm, tc.args, trm⟩ O).1
                    ⟨S.messages ++ [msg], S.newMessages ++ [msg]⟩ tc trm]
    have hE : ∀ cfg tools sys O S tcs,
        countAgentEnd (execToolCalls (n+1) cfg tools sys O S tcs).events = 0 := by
      intro cfg tools sys O S tcs
      cases tcs with
      | nil => simp [execToolCalls, countAgentEnd]
      | cons tc rest =>
        have hd := countAE_dispatch tools tc
        have hh := ihh cfg.advisors sys O
          ⟨S.messages ++ [(dispatchToolCall tools tc).2],
           S.newMessages ++ [(dispatchToolCall tools tc).2]⟩ tc (dispatchToolCall tools tc).2
        rcases hres : (handleAdvisors n cfg.advisors sys O
            ⟨S.messages ++ [(dispatchToolCall tools tc).2],
             S.newMessages ++ [(dispatchToolCall tools tc).2]⟩ tc
            (dispatchToolCall tools tc).2).res with _ | msg | u
        · simp only [execToolCalls, hres]
          simp [countAE_append, hd, hh]
        · simp only [execToolCalls, hres]
          simp [countAE_append, hd, hh]
        · by_cases hcfg : cfg.steeringConfigured = true
          · rcases hcons : consumeSteering (handleAdvisors n cfg.advisors sys O
                ⟨S.messages ++ [(dispatchToolCall tools tc).2],
                 S.newMessages ++ [(dispatchToolCall tools tc).2]⟩ tc
                (dispatchToolCall tools tc).2).oracle with ⟨sl, O'⟩
            by_cases hsl : sl.isEmpty = true
            · simp only [execToolCalls, hres, hcfg, if_true, hcons, hsl]
              simp [countAE_append, hd, hh, ihe cfg tools sys O' _ rest]
            · simp only [execToolCalls, hres, hcfg, if_true, hcons, hsl,
                Bool.false_eq_true, if_false]
              simp [countAE_append, hd, hh, countAE_skips]
          · simp only [execToolCalls, hres, hcfg, Bool.false_eq_true, if_false]
            simp [countAE_append, hd, hh, ihe cfg tools sys _ _ rest]
    have hT : ∀ cfg tools sys O S first pending,
        ((runTurns (n+1) cfg tools sys O S first pending).res = .ok () →
          ∃ pre, (runTurns (n+1) cfg tools sys O S first pending).events =
              pre ++ [.agent_end
                (runTurns (n+1) cfg tools sys O S first pending).st.newMessages]
            ∧ countAgentEnd pre = 0)
      ∧ ((runTurns (n+1) cfg tools sys O S first pending).res ≠ .ok () →
          countAgentEnd (runTurns (n+1) cfg tools sys O S first pending).events = 0) := by
      intro cfg tools sys O S first pending
      obtain ⟨llm, steer, fus⟩ := O
      cases llm with
      | nil =>
        constructor
        · intro hok
          simp [runTurns] at hok
        · intro _
          simp only [runTurns]
          cases first <;>
            simp [countAE_append, countAE_cons, countAE_nil, countAE_inj, isAgentEndEv]
      | cons m rest =>
        by_cases hhalt : haltStop m.stopReason = true
        · constructor
          · intro _
            refine ⟨(if first then [] else [AgentEvent.turn_start])
              ++ pending.flatMap (fun x => [AgentEvent.message_start x, AgentEvent.message_end x])
              ++ [AgentEvent.message_start (.assistant m), AgentEvent.message_end (.assistant m),
                  AgentEvent.turn_end (.assistant m) []], ?_, ?_⟩
            · simp [runTurns, hhalt, List.append_assoc]
            · cases first <;>
                simp [countAE_append, countAE_cons, countAE_nil, countAE_inj, isAgentEndEv]
          · intro hok
            simp [runTurns, hhalt] at hok
        · by_cases htcs : (toolCallsOf m).isEmpty = true
          · rcases hp1 : pollSteering cfg ⟨rest, steer, fus⟩ with ⟨p1v, p1O⟩
            by_cases hp1e : p1v.isEmpty = true
            · rcases hp2 : pollFollowUps cfg p1O with ⟨p2v, p2O⟩
              by_cases hp2e : p2v.isEmpty = true
              · constructor
                · intro _
                  refine ⟨(if first then [] else [AgentEvent.turn_start])
                    ++ pending.flatMap (fun x => [AgentEvent.message_start x, AgentEvent.message_end x])
                    ++ [AgentEvent.message_start (.assistant m), AgentEvent.message_end (.assistant m),
                        AgentEvent.turn_end (.assistant m) []], ?_, ?_⟩
                  · simp [runTurns, hhalt, htcs, hp1, hp1e, hp2, hp2e, List.append_assoc]
                  · cases first <;>
                      simp [countAE_append, countAE_cons, countAE_nil, countAE_inj, isAgentEndEv]
                · intro hok
                  simp [runTurns, hhalt, htcs, hp1, hp1e, hp2, hp2e] at hok
              · have ihr := iht cfg tools sys p2O
                  ⟨S.messages ++ (pending ++ [.assistant m]),
                   S.newMessages ++ (pending ++ [.assistant m])⟩ false p2v
                constructor
                · intro hok
                  simp only [runTurns, hhalt, htcs, hp1, hp1e, hp2, hp2e, List.append_assoc,
                    Bool.false_eq_true, if_false, if_true] at hok ⊢
                  obtain ⟨pre, hpre, hcnt⟩ := ihr.1 hok
                  refine ⟨(if first then [] else [AgentEvent.turn_start])
                    ++ pending.flatMap (fun x => [AgentEvent.message_start x, AgentEvent.message_end x])
                    ++ [AgentEvent.message_start (.assistant m), AgentEvent.message_end (.assistant m),
                        AgentEvent.turn_end (.assistant m) []] ++ pre, ?_, ?_⟩
                  · rw [hpre]
                    simp [List.append_assoc]
                  · cases first <;>
                      simp [countAE_append, countAE_cons, countAE_nil, countAE_inj,
                        isAgentEndEv, hcnt]
                · intro hok
                  simp only [runTurns, hhalt, htcs, hp1, hp1e, hp2, hp2e, List.append_assoc,
                    Bool.false_eq_true, if_false, if_true] at hok ⊢
                  cases first <;>
                    simp [countAE_append, countAE_cons, countAE_nil, countAE_inj,
                      isAgentEndEv, ihr.2 hok]
            · have ihr := iht cfg tools sys p1O
                ⟨S.messages ++ (pending ++ [.assistant m]),
                 S.newMessages ++ (pending ++ [.assistant m])⟩ false p1v
              constructor
              · intro hok
                simp only [runTurns, hhalt, htcs, hp1, hp1e, List.append_assoc,
                  Bool.false_eq_true, if_false, if_true] at hok ⊢
                obtain ⟨pre, hpre, hcnt⟩ := ihr.1 hok
                refine ⟨(if first then [] else [AgentEvent.turn_start])
                  ++ pending.flatMap (fun x => [AgentEvent.message_start x, AgentEvent.message_end x])
                  ++ [AgentEvent.message_start (.assistant m), AgentEvent.message_end (.assistant m),
                      AgentEvent.turn_end (.assistant m) []] ++ pre, ?_, ?_⟩
                · rw [hpre]
                  simp [List.append_assoc]
                · cases first <;>
                    simp [countAE_append, countAE_cons, countAE_nil, countAE_inj,
                      isAgentEndEv, hcnt]
              · intro hok
                simp only [runTurns, hhalt, htcs, hp1, hp1e, List.append_assoc,
                  Bool.false_eq_true, if_false, if_true] at hok ⊢
                cases first <;>
                  simp [countAE_append, countAE_cons, countAE_nil, countAE_inj,
                    isAgentEndEv, ihr.2 hok]
          · have ihex := ihe cfg tools sys ⟨rest, steer, fus⟩
              ⟨S.messages ++ (pending ++ [.assistant m]),
               S.newMessages ++ (pending ++ [.assistant m])⟩ (toolCallsOf m)
            rcases hres : (execToolCalls n cfg tools sys ⟨rest, steer, fus⟩
                ⟨S.messages ++ (pending ++ [.assistant m]),
                 S.newMessages ++ (pending ++ [.assistant m])⟩ (toolCallsOf m)).res
              with _ | msg | ru
            · constructor
              · intro hok
                simp only [runTurns, hhalt, htcs, List.append_assoc, Bool.false_eq_true, if_false,
                  hres] at hok
                exact absurd hok (by simp)
              · intro _
                simp only [runTurns, hhalt, htcs, List.append_assoc, Bool.false_eq_true, if_false, hres]
                cases first <;>
                  simp [countAE_append, countAE_cons, countAE_nil, countAE_inj,
                    isAgentEndEv, ihex]
            · constructor
              · intro hok
                simp only [runTurns, hhalt, htcs, List.append_assoc, Bool.false_eq_true, if_false,
                  hres] at hok
                exact absurd hok (by simp)
              · intro _
                simp only [runTurns, hhalt, htcs, List.append_assoc, Bool.false_eq_true, if_false, hres]
                cases first <;>
                  simp [countAE_append, countAE_cons, countAE_nil, countAE_inj,
                    isAgentEndEv, ihex]
            · obtain ⟨results, steerOpt⟩ := ru
              have ihr := iht cfg tools sys
                (nextPending cfg steerOpt (execToolCalls n cfg tools sys ⟨rest, steer, fus⟩
                  ⟨S.messages ++ (pending ++ [.assistant m]),
                   S.newMessages ++ (pending ++ [.assistant m])⟩ (toolCallsOf m)).oracle).2
                (execToolCalls n cfg tools sys ⟨rest, steer, fus⟩
                  ⟨S.messages ++ (pending ++ [.assistant m]),
                   S.newMessages ++ (pending ++ [.assistant m])⟩ (toolCallsOf m)).st false
                (nextPending cfg steerOpt (execToolCalls n cfg tools sys ⟨rest, steer, fus⟩
                  ⟨S.messages ++ (pending ++ [.assistant m]),
                   S.newMessages ++ (pending ++ [.assistant m])⟩ (toolCallsOf m)).oracle).1
              constructor
              · intro hok
                simp only [runTurns, hhalt, htcs, List.append_assoc, Bool.false_eq_true, if_false,
                  hres] at hok ⊢
                obtain ⟨pre, hpre, hcnt⟩ := ihr.1 hok
                refine ⟨(if first then [] else [AgentEvent.turn_start])
                  ++ pending.flatMap (fun x => [AgentEvent.message_start x, AgentEvent.message_end x])
                  ++ [AgentEvent.message_start (.assistant m), AgentEvent.message_end (.assistant m)]
                  ++ (execToolCalls n cfg tools sys ⟨rest, steer, fus⟩
                    ⟨S.messages ++ (pending ++ [.assistant m]),
                     S.newMessages ++ (pending ++ [.assistant m])⟩ (toolCallsOf m)).events
                  ++ [AgentEvent.turn_end (.assistant m) results] ++ pre, ?_, ?_⟩
                · rw [hpre]
                  simp [List.append_assoc]
                · cases first <;>
                    simp [countAE_append, countAE_cons, countAE_nil, countAE_inj,
                      isAgentEndEv, ihex, hcnt]
              · intro hok
                simp only [runTurns, hhalt, htcs, List.append_assoc, Bool.false_eq_true, if_false,
                  hres] at hok ⊢
                cases first <;>
                  simp [countAE_append, countAE_cons, countAE_nil, countAE_inj,
                    isAgentEndEv, ihex, ihr.2 hok]
    exact ⟨hA, hH, hE, hT⟩

end AgentCore

namespace AgentCore

/-! ## C8: exactly one `agent_end`, and it is the last event -/

/-- **C8.**  For every run started via the start entry that completes, the
parent event stream emits exactly one (top-level) `agent_end` event, it is
the last event of the stream, and it carries the run's new messages (the
sealed value).  Events of nested advisor runs never appear as a bare
`agent_end` on the parent stream: every child event is forwarded wrapped in
`advisor_event` (third conjunct), which `countAgentEnd` therefore never
counts. -/
theorem claim_C8 (fuel : Nat) (cfg : LoopConfig) (tools : List AgentTool)
    (sys : String) (prompts log : List AgentMessage) (O : Oracle)
    (hok : (startRun fuel cfg tools sys prompts log O).res = .ok ()) :
    countAgentEnd (startRun fuel cfg tools sys prompts log O).events = 1
  ∧ (startRun fuel cfg tools sys prompts log O).events.getLast? =
      some (.agent_end (startRun fuel cfg tools sys prompts log O).st.newMessages)
  ∧ ∀ (childEvents : List AgentEvent) (nm : String),
      countAgentEnd (childEvents.map (AgentEvent.advisor_event nm)) = 0 := by
  cases fuel with
  | zero => simp [startRun] at hok
  | succ n =>
    have hok' : (runTurns n cfg tools sys (pollSteering cfg O).2
        ⟨log ++ prompts, prompts⟩ true (pollSteering cfg O).1).res = .ok () := by
      simpa [startRun] using hok
    obtain ⟨pre, hpre, hcnt⟩ := ((agentEndCount n).2.2.2 cfg tools sys
      (pollSteering cfg O).2 ⟨log ++ prompts, prompts⟩ true (pollSteering cfg O).1).1 hok'
    refine ⟨?_, ?_, fun l nm => countAE_wrapped l nm⟩
    · simp only [startRun]
      rw [hpre]
      simp [countAE_append, countAE_cons, countAE_nil, countAE_inj, isAgentEndEv, hcnt]
    · simp only [startRun]
      rw [hpre, ← List.append_assoc, List.getLast?_concat]

/-- Witness for C8: a completed two-turn run (one tool call, then a final
answer) whose event stream ends with its single `agent_end`. -/
theorem claim_C8_witness :
    countAgentEnd (startRun 5 cfgPlain [echoToolFx] "sys" [.user "go"] []
      OToolThenStop).events = 1
  ∧ (startRun 5 cfgPlain [echoToolFx] "sys" [.user "go"] [] OToolThenStop).events.getLast? =
      some (.agent_end (startRun 5 cfgPlain [echoToolFx] "sys" [.user "go"] []
        OToolThenStop).st.newMessages)
  ∧ ∀ (childEvents : List AgentEvent) (nm : String),
      countAgentEnd (childEvents.map (AgentEvent.advisor_event nm)) = 0 :=
  claim_C8 5 cfgPlain [echoToolFx] "sys" [.user "go"] [] OToolThenStop (by decide)

end AgentCore

namespace AgentCore

/-! ## Pairing of tool calls and tool results in the log -/

/-- State of the left-to-right pairing scan over a message log: whether all
closed segments were correctly paired so far, and — when the scan is inside
the segment following an assistant message — the assistant's tool-call ids
with the number of matching tool results seen so far. -/
structure PairSt where
  okSoFar : Bool
  openIds : Option (List (String × Nat))
deriving DecidableEq, Repr

/-- A segment is correctly paired when every tool-call id collected exactly
one matching tool result (vacuously true outside a segment). -/
def closeOk : Option (List (String × Nat)) → Bool
  | none => true
  | some l => l.all fun p => p.2 == 1

/-- Record one tool result for id `i`. -/
def bumpId (l : List (String × Nat)) (i : String) : List (String × Nat) :=
  l.map fun p => if p.1 == i then (p.1, p.2 + 1) else p

/-- Record one tool result per id, in order. -/
def bumpAll (l : List (String × Nat)) (ids : List String) : List (String × Nat) :=
  ids.foldl bumpId l

/-- One scan step for the claim **as stated**: every assistant message
closes the previous segment and opens a new one holding all its tool-call
ids; every tool result bumps its id; other messages are ignored. -/
def pairStepStrict (s : PairSt) (msg : AgentMessage) : PairSt :=
  match msg with
  | .assistant a =>
    ⟨s.okSoFar && closeOk s.openIds, some ((toolCallIds a).map fun i => (i, 0))⟩
  | .toolResult i _ _ _ =>
    ⟨s.okSoFar, match s.openIds with
      | none => none
      | some l => some (bumpId l i)⟩
  | _ => s

/-- One scan step for the **amended** pairing: identical to
`pairStepStrict` except that an assistant message with `stopReason`
`error`/`aborted` opens no segment — the run ends immediately at DECIDE
(source line 146) and its tool calls, if any, are never dispatched. -/
def pairStepLog (s : PairSt) (msg : AgentMessage) : PairSt :=
  match msg with
  | .assistant a =>
    ⟨s.okSoFar && closeOk s.openIds,
     if haltStop a.stopReason then none
     else some ((toolCallIds a).map fun i => (i, 0))⟩
  | .toolResult i _ _ _ =>
    ⟨s.okSoFar, match s.openIds with
      | none => none
      | some l => some (bumpId l i)⟩
  | _ => s

/-- The pairing invariant exactly as the claim states it: in the given log,
every `toolCall` id of every assistant message is followed — before the
next assistant message — by exactly one `toolResult` with that id. -/
def pairedStrict (msgs : List AgentMessage) : Bool :=
  let f := msgs.foldl pairStepStrict ⟨true, none⟩
  f.okSoFar && closeOk f.openIds

/-- The amended pairing invariant: as `pairedStrict`, except that a final
assistant message with `stopReason` `error`/`aborted` is exempt. -/
def pairedLog (msgs : List AgentMessage) : Bool :=
  let f := msgs.foldl pairStepLog ⟨true, none⟩
  f.okSoFar && closeOk f.openIds

/-- Well-formed environment for the pairing claim: steering and follow-up
polls answer only user messages (they model user-authored injections), and
every adapter response has pairwise distinct tool-call ids. -/
def OracleWF (O : Oracle) : Prop :=
  (∀ s ∈ O.steering, ∀ x ∈ s, isUserMsg x = true) ∧
  (∀ s ∈ O.followUps, ∀ x ∈ s, isUserMsg x = true) ∧
  (∀ m ∈ O.llm, (toolCallIds m).Nodup)

/-- An adapter oracle whose only response is aborted but carries a tool
call (a stream aborted mid tool-call). -/
def OAbort : Oracle := ⟨[⟨[.toolCall "t1" "echo" "{}"], .aborted⟩], [], []⟩

/-- **C1 counterexample.**  The claim as stated fails on an assistant
message whose `stopReason` is `aborted` (or `error`) and whose content
carries tool calls: the loop ends the run at DECIDE (source lines 146-151)
without dispatching or skipping anything, so the tool-call id `t1` is
followed by no `toolResult` at all.  The run completes normally
(`agent_end`), its log ends with the aborted assistant message, and the
pairing predicate of the claim is false on it. -/
theorem claim_C1_counterexample :
    (startRun 5 cfgPlain [echoToolFx] "sys" [.user "go"] [] OAbort).res = .ok ()
  ∧ (startRun 5 cfgPlain [echoToolFx] "sys" [.user "go"] [] OAbort).st.newMessages =
      [.user "go", .assistant ⟨[.toolCall "t1" "echo" "{}"], .aborted⟩]
  ∧ pairedStrict (startRun 5 cfgPlain [echoToolFx] "sys" [.user "go"] []
      OAbort).st.newMessages = false := by
  decide

end AgentCore

namespace AgentCore

theorem pairScan_append (s : PairSt) (a b : List AgentMessage) :
    (a ++ b).foldl pairStepLog s = b.foldl pairStepLog (a.foldl pairStepLog s) :=
  List.foldl_append _ _ _ _

theorem pairScan_inert (l : List AgentMessage)
    (h : ∀ x ∈ l, isUserMsg x = true ∨ isAdvisorMsg x = true) (s : PairSt) :
    l.foldl pairStepLog s = s := by
  induction l generalizing s with
  | nil => rfl
  | cons x xs ih =>
    have hx := h x (by simp)
    have hstep : pairStepLog s x = s := by
      rcases x with t | a | ⟨i, nmm, t, e⟩ | ⟨an, c, mo⟩
      · rfl
      · simp [isUserMsg, isAdvisorMsg] at hx
      · simp [isUserMsg, isAdvisorMsg] at hx
      · rfl
    simp only [List.foldl_cons, hstep]
    exact ih (fun x hm => h x (by simp [hm])) s

theorem pairScan_skips (rest : List ToolCall) (b : Bool) (l : List (String × Nat)) :
    ((rest.map skipToolCall).map Prod.snd).foldl pairStepLog ⟨b, some l⟩ =
      ⟨b, some (bumpAll l (rest.map ToolCall.id))⟩ := by
  induction rest generalizing l with
  | nil => rfl
  | cons c cs ih =>
    simp only [List.map_cons, List.foldl_cons, skipToolCall, pairStepLog]
    exact ih (bumpId l c.id)

theorem bumpAll_count (ids : List String) (l : List (String × Nat)) :
    bumpAll l ids = l.map fun p => (p.1, p.2 + ids.count p.1) := by
  induction ids generalizing l with
  | nil => simp [bumpAll]
  | cons i is ih =>
    show bumpAll (bumpId l i) is = _
    rw [ih (bumpId l i)]
    simp only [bumpId, List.map_map]
    refine List.map_congr_left fun p _ => ?_
    by_cases hp : p.1 = i
    · subst hp
      simp only [Function.comp, beq_self_eq_true, if_true, List.count_cons,
        Prod.mk.injEq, true_and]
      omega
    · have h1 : (p.1 == i) = false := by simpa [beq_iff_eq] using hp
      have h2 : (i == p.1) = false := by
        simpa [beq_iff_eq] using (Ne.symm hp)
      simp [Function.comp, h1, List.count_cons, h2]

end AgentCore

namespace AgentCore

theorem closeOk_bumpAll (ids : List String) (h : ids.Nodup) :
    closeOk (some (bumpAll (ids.map fun i => (i, 0)) ids)) = true := by
  rw [bumpAll_count]
  simp only [closeOk, List.map_map, List.all_eq_true]
  intro p hp
  simp only [List.mem_map, Function.comp] at hp
  obtain ⟨i, hi, rfl⟩ := hp
  simp [List.count_eq_one_of_mem h hi]

theorem pairStep_dispatch (tools : List AgentTool) (tc : ToolCall) (b : Bool)
    (l : List (String × Nat)) :
    pairStepLog ⟨b, some l⟩ (dispatchToolCall tools tc).2 = ⟨b, some (bumpId l tc.id)⟩ := by
  rcases hl : toolLookup tools tc.nm with _ | t
  · simp [dispatchToolCall, hl, pairStepLog]
  · rcases hx : t.exec tc with ⟨updates, text⟩ | msg | msg <;>
      simp [dispatchToolCall, hl, hx, pairStepLog]

theorem OracleWF_tail {m : AssistantMsg} {rest : List AssistantMsg}
    {st fu : List (List AgentMessage)} (h : OracleWF ⟨m :: rest, st, fu⟩) :
    OracleWF ⟨rest, st, fu⟩ ∧ (toolCallIds m).Nodup := by
  obtain ⟨h1, h2, h3⟩ := h
  exact ⟨⟨h1, h2, fun x hx => h3 x (List.mem_cons_of_mem _ hx)⟩, h3 m (by simp)⟩

theorem OracleWF_consume (O : Oracle) (h : OracleWF O) :
    OracleWF (consumeSteering O).2 ∧ ∀ x ∈ (consumeSteering O).1, isUserMsg x = true := by
  rcases O with ⟨llm, steer, fu⟩
  cases steer with
  | nil => exact ⟨h, by simp [consumeSteering]⟩
  | cons s rest =>
    obtain ⟨h1, h2, h3⟩ := h
    refine ⟨⟨fun t ht => h1 t (List.mem_cons_of_mem _ ht), h2, h3⟩, ?_⟩
    intro x hx
    exact h1 s (by simp) x hx

theorem OracleWF_pollSteering (cfg : LoopConfig) (O : Oracle) (h : OracleWF O) :
    OracleWF (pollSteering cfg O).2 ∧ ∀ x ∈ (pollSteering cfg O).1, isUserMsg x = true := by
  by_cases hc : cfg.steeringConfigured = true
  · simp only [pollSteering, hc, if_true]
    exact OracleWF_consume O h
  · simp only [pollSteering, hc, Bool.false_eq_true, if_false]
    exact ⟨h, by simp⟩

theorem OracleWF_pollFollowUps (cfg : LoopConfig) (O : Oracle) (h : OracleWF O) :
    OracleWF (pollFollowUps cfg O).2 ∧ ∀ x ∈ (pollFollowUps cfg O).1, isUserMsg x = true := by
  by_cases hc : cfg.followUpConfigured = true
  · simp only [pollFollowUps, hc, if_true]
    rcases O with ⟨llm, steer, fu⟩
    cases fu with
    | nil => exact ⟨h, by simp⟩
    | cons s rest =>
      obtain ⟨h1, h2, h3⟩ := h
      refine ⟨⟨h1, fun t ht => h2 t (List.mem_cons_of_mem _ ht), h3⟩, ?_⟩
      intro x hx
      exact h2 s (by simp) x hx
  · simp only [pollFollowUps, hc, Bool.false_eq_true, if_false]
    exact ⟨h, by simp⟩

theorem OracleWF_nextPending (cfg : LoopConfig) (so : Option (List AgentMessage))
    (O : Oracle) (h : OracleWF O)
    (hso : ∀ s', so = some s' → ∀ x ∈ s', isUserMsg x = true) :
    OracleWF (nextPending cfg so O).2 ∧
    ∀ x ∈ (nextPending cfg so O).1, isUserMsg x = true := by
  rcases so with _ | s
  · simp only [nextPending]
    exact OracleWF_pollSteering cfg O h
  · by_cases hs : s.isEmpty = true
    · simp only [nextPending, hs, if_true]
      exact OracleWF_pollSteering cfg O h
    · simp only [nextPending, hs, Bool.false_eq_true, if_false]
      exact ⟨h, hso s rfl⟩

end AgentCore

namespace AgentCore

theorem pairStep_advisor {msg : AgentMessage} (h : isAdvisorMsg msg = true) (s : PairSt) :
    pairStepLog s msg = s := by
  rcases msg with t | a | ⟨i, nmm, t, e⟩ | ⟨an, c, mo⟩
  · rfl
  · simp [isAdvisorMsg] at h
  · simp [isAdvisorMsg] at h
  · rfl

/-- The pairing induction across the mutually recursive phases: every phase
appends the same message list `Δ` to the log and to `newMessages`, advisor
handling appends only pair-inert advisor messages, a completed dispatcher
pass records exactly one tool result per dispatched-or-skipped tool-call id
(in order), oracles stay well-formed, and a completed turn loop keeps the
log pairing invariant. -/
theorem pairingInvariant : ∀ fuel : Nat,
    (∀ adv params O,
      (OracleWF O → OracleWF (runAdvisor fuel adv params O).1) ∧
      (∀ c msg, (runAdvisor fuel adv params O).2.2 = .ok (some (c, msg)) →
        isAdvisorMsg msg = true))
  ∧ (∀ advisors sys O S tc trm, ∃ Δ,
      (handleAdvisors fuel advisors sys O S tc trm).st.messages = S.messages ++ Δ ∧
      (handleAdvisors fuel advisors sys O S tc trm).st.newMessages = S.newMessages ++ Δ ∧
      (∀ s : PairSt, Δ.foldl pairStepLog s = s) ∧
      (OracleWF O → OracleWF (handleAdvisors fuel advisors sys O S tc trm).oracle))
  ∧ (∀ cfg tools sys O S tcs, ∃ Δ,
      (execToolCalls fuel cfg tools sys O S tcs).st.messages = S.messages ++ Δ ∧
      (execToolCalls fuel cfg tools sys O S tcs).st.newMessages = S.newMessages ++ Δ ∧
      (OracleWF O → OracleWF (execToolCalls fuel cfg tools sys O S tcs).oracle) ∧
      (∀ results so, (execToolCalls fuel cfg tools sys O S tcs).res = .ok (results, so) →
        (∀ (b : Bool) (l : List (String × Nat)),
          Δ.foldl pairStepLog ⟨b, some l⟩ = ⟨b, some (bumpAll l (tcs.map ToolCall.id))⟩) ∧
        (∀ s', so = some s' → OracleWF O → ∀ x ∈ s', isUserMsg x = true)))
  ∧ (∀ cfg tools sys O S first pending, ∃ Δ,
      (runTurns fuel cfg tools sys O S first pending).st.messages = S.messages ++ Δ ∧
      (runTurns fuel cfg tools sys O S first pending).st.newMessages = S.newMessages ++ Δ ∧
      (OracleWF O → OracleWF (runTurns fuel cfg tools sys O S first pending).oracle) ∧
      ((∀ x ∈ pending, isUserMsg x = true) → OracleWF O →
        (runTurns fuel cfg tools sys O S first pending).res = .ok () →
        ∀ s : PairSt, s.okSoFar = true → closeOk s.openIds = true →
          (Δ.foldl pairStepLog s).okSoFar = true ∧
          closeOk (Δ.foldl pairStepLog s).openIds = true))
  ∧ (∀ cfg tools sys prompts log O, OracleWF O →
      OracleWF (startRun fuel cfg tools sys prompts log O).oracle) := by
  intro fuel
  induction fuel with
  | zero =>
    refine ⟨?_, ?_, ?_, ?_, ?_⟩
    · intro adv params O
      exact ⟨fun h => h, fun c msg h => by simp [runAdvisor] at h⟩
    · intro advisors sys O S tc trm
      exact ⟨[], by simp [handleAdvisors], by simp [handleAdvisors],
        fun s => rfl, fun h => h⟩
    · intro cfg tools sys O S tcs
      exact ⟨[], by simp [execToolCalls], by simp [execToolCalls], fun h => h,
        fun results so h => by simp [execToolCalls] at h⟩
    · intro cfg tools sys O S first pending
      exact ⟨[], by simp [runTurns], by simp [runTurns], fun h => h,
        fun _ _ h => by simp [runTurns] at h⟩
    · intro cfg tools sys prompts log O h
      simpa [startRun] using h
  | succ n ih =>
    obtain ⟨iha, ihh, ihe, iht, ihs⟩ := ih
    have hA : ∀ adv params O,
        (OracleWF O → OracleWF (runAdvisor (n+1) adv params O).1) ∧
        (∀ c msg, (runAdvisor (n+1) adv params O).2.2 = .ok (some (c, msg)) →
          isAdvisorMsg msg = true) := by
      intro adv params O
      rcases hcc : adv.createContext params with e | ⟨sysP, prompts⟩
      · constructor
        · intro h
          simpa [runAdvisor, hcc] using h
        · intro c msg h
          simp [runAdvisor, hcc] at h
      · rcases hres : (startRun n (advisorLoopConfig adv) adv.tools sysP prompts [] O).res
          with _ | msg | u
        · constructor
          · intro h
            simp only [runAdvisor, hcc, hres]
            exact ihs _ _ _ _ _ O h
          · intro c msg h
            simp [runAdvisor, hcc, hres] at h
        · constructor
          · intro h
            simp only [runAdvisor, hcc, hres]
            exact ihs _ _ _ _ _ O h
          · intro c msg h
            simp [runAdvisor, hcc, hres] at h
        · constructor
          · intro h
            simp only [runAdvisor, hcc, hres]
            split
            · exact ihs _ _ _ _ _ O h
            · exact ihs _ _ _ _ _ O h
          · intro c msg h
            simp only [runAdvisor, hcc, hres] at h
            split at h
            · simp at h
            · simp only [RunRes.ok.injEq, Option.some.injEq, Prod.mk.injEq] at h
              rw [← h.2]
              rfl
    have hH : ∀ advisors sys O S tc trm, ∃ Δ,
        (handleAdvisors (n+1) advisors sys O S tc trm).st.messages = S.messages ++ Δ ∧
        (handleAdvisors (n+1) advisors sys O S tc trm).st.newMessages = S.newMessages ++ Δ ∧
        (∀ s : PairSt, Δ.foldl pairStepLog s = s) ∧
        (OracleWF O → OracleWF (handleAdvisors (n+1) advisors sys O S tc trm).oracle) := by
      intro advisors sys O S tc trm
      cases advisors with
      | nil =>
        exact ⟨[], by simp [handleAdvisors], by simp [handleAdvisors],
          fun s => rfl, fun h => by simpa [handleAdvisors] using h⟩
      | cons adv rest =>
        rcases htr : adv.trigger ⟨S.messages, tc.nm, tc.args, trm⟩ with e | b
        · exact ⟨[], by simp [handleAdvisors, htr], by simp [handleAdvisors, htr],
            fun s => rfl, fun h => by simpa [handleAdvisors, htr] using h⟩
        · cases b with
          | false =>
            obtain ⟨Δ, h1, h2, h3, h4⟩ := ihh rest sys O S tc trm
            exact ⟨Δ, by simp only [handleAdvisors, htr]; exact h1,
              by simp only [handleAdvisors, htr]; exact h2, h3,
              fun h => by simp only [handleAdvisors, htr]; exact h4 h⟩
          | true =>
            rcases hres : (runAdvisor n adv ⟨sys, S.messages, tc.nm, tc.args, trm⟩ O).2.2
              with _ | msg | om
            · exact ⟨[], by simp [handleAdvisors, htr, hres],
                by simp [handleAdvisors, htr, hres], fun s => rfl,
                fun h => by
                  simp only [handleAdvisors, htr, hres]
                  exact (iha adv ⟨sys, S.messages, tc.nm, tc.args, trm⟩ O).1 h⟩
            · exact ⟨[], by simp [handleAdvisors, htr, hres],
                by simp [handleAdvisors, htr, hres], fun s => rfl,
                fun h => by
                  simp only [handleAdvisors, htr, hres]
                  exact (iha adv ⟨sys, S.messages, tc.nm, tc.args, trm⟩ O).1 h⟩
            · rcases om with _ | ⟨c, msg⟩
              · obtain ⟨Δ, h1, h2, h3, h4⟩ := ihh rest sys
                  (runAdvisor n adv ⟨sys, S.messages, tc.nm, tc.args, trm⟩ O).1 S tc trm
                exact ⟨Δ, by simp only [handleAdvisors, htr, hres]; exact h1,
                  by simp only [handleAdvisors, htr, hres]; exact h2, h3,
                  fun h => by
                    simp only [handleAdvisors, htr, hres]
                    exact h4 ((iha adv ⟨sys, S.messages, tc.nm, tc.args, trm⟩ O).1 h)⟩
              · have hadvmsg : isAdvisorMsg msg = true :=
                  (iha adv ⟨sys, S.messages, tc.nm, tc.args, trm⟩ O).2 c msg hres
                obtain ⟨Δ, h1, h2, h3, h4⟩ := ihh rest sys
                  (runAdvisor n adv ⟨sys, S.messages, tc.nm, tc.args, trm⟩ O).1
                  ⟨S.messages ++ [msg], S.newMessages ++ [msg]⟩ tc trm
                refine ⟨msg :: Δ, ?_, ?_, ?_, ?_⟩
                · simp only [handleAdvisors, htr, hres]
                  rw [h1]
                  simp
                · simp only [handleAdvisors, htr, hres]
                  rw [h2]
                  simp
                · intro s
                  simp only [List.foldl_cons, pairStep_advisor hadvmsg]
                  exact h3 s
                · intro h
                  simp only [handleAdvisors, htr, hres]
                  exact h4 ((iha adv ⟨sys, S.messages, tc.nm, tc.args, trm⟩ O).1 h)
    have hE : ∀ cfg tools sys O S tcs, ∃ Δ,
        (execToolCalls (n+1) cfg tools sys O S tcs).st.messages = S.messages ++ Δ ∧
        (execToolCalls (n+1) cfg tools sys O S tcs).st.newMessages = S.newMessages ++ Δ ∧
        (OracleWF O → OracleWF (execToolCalls (n+1) cfg tools sys O S tcs).oracle) ∧
        (∀ results so,
          (execToolCalls (n+1) cfg tools sys O S tcs).res = .ok (results, so) →
          (∀ (b : Bool) (l : List (String × Nat)),
            Δ.foldl pairStepLog ⟨b, some l⟩ =
              ⟨b, some (bumpAll l (tcs.map ToolCall.id))⟩) ∧
          (∀ s', so = some s' → OracleWF O → ∀ x ∈ s', isUserMsg x = true)) := by
      intro cfg tools sys O S tcs
      cases tcs with
      | nil =>
        refine ⟨[], by simp [execToolCalls], by simp [execToolCalls],
          fun h => by simpa [execToolCalls] using h, ?_⟩
        intro results so hres
        simp only [execToolCalls, RunRes.ok.injEq, Prod.mk.injEq] at hres
        obtain ⟨h1, h2⟩ := hres
        constructor
        · intro b l
          rfl
        · intro s' hs'
          rw [← h2] at hs'
          simp at hs'
      | cons tc rest =>
        obtain ⟨Δh, hh1, hh2, hhscan, hhwf⟩ := ihh cfg.advisors sys O
          ⟨S.messages ++ [(dispatchToolCall tools tc).2],
           S.newMessages ++ [(dispatchToolCall tools tc).2]⟩ tc (dispatchToolCall tools tc).2
        rcases hres : (handleAdvisors n cfg.advisors sys O
            ⟨S.messages ++ [(dispatchToolCall tools tc).2],
             S.newMessages ++ [(dispatchToolCall tools tc).2]⟩ tc
            (dispatchToolCall tools tc).2).res with _ | msg | u
        · refine ⟨(dispatchToolCall tools tc).2 :: Δh, ?_, ?_, ?_, ?_⟩
          · simp only [execToolCalls, hres]
            rw [hh1]
            simp
          · simp only [execToolCalls, hres]
            rw [hh2]
            simp
          · intro h
            simp only [execToolCalls, hres]
            exact hhwf h
          · intro results so h
            simp [execToolCalls, hres] at h
        · refine ⟨(dispatchToolCall tools tc).2 :: Δh, ?_, ?_, ?_, ?_⟩
          · simp only [execToolCalls, hres]
            rw [hh1]
            simp
          · simp only [execToolCalls, hres]
            rw [hh2]
            simp
          · intro h
            simp only [execToolCalls, hres]
            exact hhwf h
          · intro results so h
            simp [execToolCalls, hres] at h
        · by_cases hcfg : cfg.steeringConfigured = true
          · rcases hcons : consumeSteering (handleAdvisors n cfg.advisors sys O
                ⟨S.messages ++ [(dispatchToolCall tools tc).2],
                 S.newMessages ++ [(dispatchToolCall tools tc).2]⟩ tc
                (dispatchToolCall tools tc).2).oracle with ⟨sl, O'⟩
            have hwO' : OracleWF (handleAdvisors n cfg.advisors sys O
                ⟨S.messages ++ [(dispatchToolCall tools tc).2],
                 S.newMessages ++ [(dispatchToolCall tools tc).2]⟩ tc
                (dispatchToolCall tools tc).2).oracle →
                OracleWF O' ∧ ∀ x ∈ sl, isUserMsg x = true := by
              intro w
              have hc := OracleWF_consume _ w
              rw [hcons] at hc
              exact hc
            by_cases hsl : sl.isEmpty = true
            · obtain ⟨Δr, hr1, hr2, hrwf, hrok⟩ := ihe cfg tools sys O'
                (handleAdvisors n cfg.advisors sys O
                  ⟨S.messages ++ [(dispatchToolCall tools tc).2],
                   S.newMessages ++ [(dispatchToolCall tools tc).2]⟩ tc
                  (dispatchToolCall tools tc).2).st rest
              refine ⟨(dispatchToolCall tools tc).2 :: (Δh ++ Δr), ?_, ?_, ?_, ?_⟩
              · simp only [execToolCalls, hres, hcfg, if_true, hcons, hsl]
                rw [hr1, hh1]
                simp
              · simp only [execToolCalls, hres, hcfg, if_true, hcons, hsl]
                rw [hr2, hh2]
                simp
              · intro w
                simp only [execToolCalls, hres, hcfg, if_true, hcons, hsl]
                exact hrwf (hwO' (hhwf w)).1
              · intro results so h
                rcases hrres : (execToolCalls n cfg tools sys O'
                    (handleAdvisors n cfg.advisors sys O
                      ⟨S.messages ++ [(dispatchToolCall tools tc).2],
                       S.newMessages ++ [(dispatchToolCall tools tc).2]⟩ tc
                      (dispatchToolCall tools tc).2).st rest).res with _ | m2 | ru
                · simp [execToolCalls, hres, hcfg, hcons, hsl, hrres] at h
                · simp [execToolCalls, hres, hcfg, hcons, hsl, hrres] at h
                · obtain ⟨rs, so'⟩ := ru
                  simp only [execToolCalls, hres, hcfg, if_true, hcons, hsl, hrres,
                    RunRes.ok.injEq, Prod.mk.injEq] at h
                  obtain ⟨h1, h2⟩ := h
                  obtain ⟨hpair, hso⟩ := hrok rs so' hrres
                  constructor
                  · intro b l
                    simp only [List.foldl_cons]
                    rw [pairStep_dispatch, pairScan_append, hhscan,
                      hpair b (bumpId l tc.id)]
                    rfl
                  · intro s' hs' w
                    rw [← h2] at hs'
                    exact hso s' hs' (hwO' (hhwf w)).1
            · refine ⟨(dispatchToolCall tools tc).2 ::
                  (Δh ++ (rest.map skipToolCall).map Prod.snd), ?_, ?_, ?_, ?_⟩
              · simp only [execToolCalls, hres, hcfg, if_true, hcons, hsl]
                rw [hh1]
                simp
              · simp only [execToolCalls, hres, hcfg, if_true, hcons, hsl]
                rw [hh2]
                simp
              · intro w
                simp only [execToolCalls, hres, hcfg, if_true, hcons, hsl]
                exact (hwO' (hhwf w)).1
              · intro results so h
                simp only [execToolCalls, hres, hcfg, if_true, hcons, hsl,
                  Bool.false_eq_true, if_false, RunRes.ok.injEq, Prod.mk.injEq] at h
                obtain ⟨h1, h2⟩ := h
                constructor
                · intro b l
                  simp only [List.foldl_cons]
                  rw [pairStep_dispatch, pairScan_append, hhscan, pairScan_skips]
                  rfl
                · intro s' hs' w
                  rw [← h2] at hs'
                  have hss : sl = s' := by simpa using hs'
                  subst hss
                  exact (hwO' (hhwf w)).2
          · obtain ⟨Δr, hr1, hr2, hrwf, hrok⟩ := ihe cfg tools sys
              (handleAdvisors n cfg.advisors sys O
                ⟨S.messages ++ [(dispatchToolCall tools tc).2],
                 S.newMessages ++ [(dispatchToolCall tools tc).2]⟩ tc
                (dispatchToolCall tools tc).2).oracle
              (handleAdvisors n cfg.advisors sys O
                ⟨S.messages ++ [(dispatchToolCall tools tc).2],
                 S.newMessages ++ [(dispatchToolCall tools tc).2]⟩ tc
                (dispatchToolCall tools tc).2).st rest
            refine ⟨(dispatchToolCall tools tc).2 :: (Δh ++ Δr), ?_, ?_, ?_, ?_⟩
            · simp only [execToolCalls, hres, hcfg, Bool.false_eq_true, if_false]
              rw [hr1, hh1]
              simp
            · simp only [execToolCalls, hres, hcfg, Bool.false_eq_true, if_false]
              rw [hr2, hh2]
              simp
            · intro w
              simp only [execToolCalls, hres, hcfg, Bool.false_eq_true, if_false]
              exact hrwf (hhwf w)
            · intro results so h
              rcases hrres : (execToolCalls n cfg tools sys
                  (handleAdvisors n cfg.advisors sys O
                    ⟨S.messages ++ [(dispatchToolCall tools tc).2],
                     S.newMessages ++ [(dispatchToolCall tools tc).2]⟩ tc
                    (dispatchToolCall tools tc).2).oracle
                  (handleAdvisors n cfg.advisors sys O
                    ⟨S.messages ++ [(dispatchToolCall tools tc).2],
                     S.newMessages ++ [(dispatchToolCall tools tc).2]⟩ tc
                    (dispatchToolCall tools tc).2).st rest).res with _ | m2 | ru
              · simp [execToolCalls, hres, hcfg, hrres] at h
              · simp [execToolCalls, hres, hcfg, hrres] at h
              · obtain ⟨rs, so'⟩ := ru
                simp only [execToolCalls, hres, hcfg, Bool.false_eq_true, if_false, hrres,
                  RunRes.ok.injEq, Prod.mk.injEq] at h
                obtain ⟨h1, h2⟩ := h
                obtain ⟨hpair, hso⟩ := hrok rs so' hrres
                constructor
                · intro b l
                  simp only [List.foldl_cons]
                  rw [pairStep_dispatch, pairScan_append, hhscan,
                    hpair b (bumpId l tc.id)]
                  rfl
                · intro s' hs' w
                  rw [← h2] at hs'
                  exact hso s' hs' (hhwf w)
    have hT : ∀ cfg tools sys O S first pending, ∃ Δ,
        (runTurns (n+1) cfg tools sys O S first pending).st.messages = S.messages ++ Δ ∧
        (runTurns (n+1) cfg tools sys O S first pending).st.newMessages =
          S.newMessages ++ Δ ∧
        (OracleWF O → OracleWF (runTurns (n+1) cfg tools sys O S first pending).oracle) ∧
        ((∀ x ∈ pending, isUserMsg x = true) → OracleWF O →
          (runTurns (n+1) cfg tools sys O S first pending).res = .ok () →
          ∀ s : PairSt, s.okSoFar = true → closeOk s.openIds = true →
            (Δ.foldl pairStepLog s).okSoFar = true ∧
            closeOk (Δ.foldl pairStepLog s).openIds = true) := by
      intro cfg tools sys O S first pending
      obtain ⟨llm, steer, fus⟩ := O
      cases llm with
      | nil =>
        refine ⟨pending, by simp [runTurns], by simp [runTurns],
          fun h => by simpa [runTurns] using h, ?_⟩
        intro _ _ h
        simp [runTurns] at h
      | cons m rest =>
        by_cases hhalt : haltStop m.stopReason = true
        · refine ⟨pending ++ [.assistant m], by simp [runTurns, hhalt],
            by simp [runTurns, hhalt], ?_, ?_⟩
          · intro h
            simp only [runTurns, hhalt, if_true]
            exact (OracleWF_tail h).1
          · intro hpend hw hres s hsok hsclose
            rw [pairScan_append, pairScan_inert pending (fun x hx => Or.inl (hpend x hx)) s]
            have hstep : [AgentMessage.assistant m].foldl pairStepLog s =
                (⟨true, none⟩ : PairSt) := by
              simp [pairStepLog, hhalt, hsok, hsclose]
            rw [hstep]
            exact ⟨rfl, rfl⟩
        · by_cases htcs : (toolCallsOf m).isEmpty = true
          · have hids : toolCallIds m = [] := by
              simp only [toolCallIds]
              rw [List.isEmpty_iff.mp htcs]
              rfl
            rcases hp1 : pollSteering cfg ⟨rest, steer, fus⟩ with ⟨p1v, p1O⟩
            have hwp1 : OracleWF ⟨rest, steer, fus⟩ →
                OracleWF p1O ∧ ∀ x ∈ p1v, isUserMsg x = true := by
              intro w
              have hc := OracleWF_pollSteering cfg ⟨rest, steer, fus⟩ w
              rw [hp1] at hc
              exact hc
            by_cases hp1e : p1v.isEmpty = true
            · rcases hp2 : pollFollowUps cfg p1O with ⟨p2v, p2O⟩
              have hwp2 : OracleWF p1O →
                  OracleWF p2O ∧ ∀ x ∈ p2v, isUserMsg x = true := by
                intro w
                have hc := OracleWF_pollFollowUps cfg p1O w
                rw [hp2] at hc
                exact hc
              by_cases hp2e : p2v.isEmpty = true
              · refine ⟨pending ++ [.assistant m],
                  by simp [runTurns, hhalt, htcs, hp1, hp1e, hp2, hp2e],
                  by simp [runTurns, hhalt, htcs, hp1, hp1e, hp2, hp2e], ?_, ?_⟩
                · intro h
                  simp only [runTurns, hhalt, htcs, hp1, hp1e, hp2, hp2e,
                    Bool.false_eq_true, if_false, if_true]
                  exact (hwp2 (hwp1 (OracleWF_tail h).1).1).1
                · intro hpend hw hres s hsok hsclose
                  rw [pairScan_append,
                    pairScan_inert pending (fun x hx => Or.inl (hpend x hx)) s]
                  have hstep : [AgentMessage.assistant m].foldl pairStepLog s =
                      (⟨true, some []⟩ : PairSt) := by
                    simp [pairStepLog, hhalt, hids, hsok, hsclose]
                  rw [hstep]
                  exact ⟨rfl, rfl⟩
              · obtain ⟨Δr, hr1, hr2, hrwf, hrok⟩ := iht cfg tools sys p2O
                  ⟨S.messages ++ pending ++ [.assistant m],
                   S.newMessages ++ pending ++ [.assistant m]⟩ false p2v
                refine ⟨pending ++ [.assistant m] ++ Δr, ?_, ?_, ?_, ?_⟩
                · simp only [runTurns, hhalt, htcs, hp1, hp1e, hp2, hp2e,
                    Bool.false_eq_true, if_false, if_true]
                  rw [hr1]
                  simp
                · simp only [runTurns, hhalt, htcs, hp1, hp1e, hp2, hp2e,
                    Bool.false_eq_true, if_false, if_true]
                  rw [hr2]
                  simp
                · intro h
                  simp only [runTurns, hhalt, htcs, hp1, hp1e, hp2, hp2e,
                    Bool.false_eq_true, if_false, if_true]
                  exact hrwf (hwp2 (hwp1 (OracleWF_tail h).1).1).1
                · intro hpend hw hres s hsok hsclose
                  have hw2 := hwp2 (hwp1 (OracleWF_tail hw).1).1
                  simp only [runTurns, hhalt, htcs, hp1, hp1e, hp2, hp2e,
                    Bool.false_eq_true, if_false, if_true] at hres
                  rw [pairScan_append, pairScan_append,
                    pairScan_inert pending (fun x hx => Or.inl (hpend x hx)) s]
                  have hstep : [AgentMessage.assistant m].foldl pairStepLog s =
                      (⟨true, some []⟩ : PairSt) := by
                    simp [pairStepLog, hhalt, hids, hsok, hsclose]
                  rw [hstep]
                  exact hrok hw2.2 hw2.1 hres ⟨true, some []⟩ rfl rfl
            · obtain ⟨Δr, hr1, hr2, hrwf, hrok⟩ := iht cfg tools sys p1O
                ⟨S.messages ++ pending ++ [.assistant m],
                 S.newMessages ++ pending ++ [.assistant m]⟩ false p1v
              refine ⟨pending ++ [.assistant m] ++ Δr, ?_, ?_, ?_, ?_⟩
              · simp only [runTurns, hhalt, htcs, hp1, hp1e,
                  Bool.false_eq_true, if_false, if_true]
                rw [hr1]
                simp
              · simp only [runTurns, hhalt, htcs, hp1, hp1e,
                  Bool.false_eq_true, if_false, if_true]
                rw [hr2]
                simp
              · intro h
                simp only [runTurns, hhalt, htcs, hp1, hp1e,
                  Bool.false_eq_true, if_false, if_true]
                exact hrwf (hwp1 (OracleWF_tail h).1).1
              · intro hpend hw hres s hsok hsclose
                have hw1 := hwp1 (OracleWF_tail hw).1
                simp only [runTurns, hhalt, htcs, hp1, hp1e,
                  Bool.false_eq_true, if_false, if_true] at hres
                rw [pairScan_append, pairScan_append,
                  pairScan_inert pending (fun x hx => Or.inl (hpend x hx)) s]
                have hstep : [AgentMessage.assistant m].foldl pairStepLog s =
                    (⟨true, some []⟩ : PairSt) := by
                  simp [pairStepLog, hhalt, hids, hsok, hsclose]
                rw [hstep]
                exact hrok hw1.2 hw1.1 hres ⟨true, some []⟩ rfl rfl
          · obtain ⟨Δe, he1, he2, hewf, heok⟩ := ihe cfg tools sys ⟨rest, steer, fus⟩
              ⟨S.messages ++ pending ++ [.assistant m],
               S.newMessages ++ pending ++ [.assistant m]⟩ (toolCallsOf m)
            rcases hres : (execToolCalls n cfg tools sys ⟨rest, steer, fus⟩
                ⟨S.messages ++ pending ++ [.assistant m],
                 S.newMessages ++ pending ++ [.assistant m]⟩ (toolCallsOf m)).res
              with _ | msg2 | ru
            · refine ⟨pending ++ [.assistant m] ++ Δe, ?_, ?_, ?_, ?_⟩
              · simp only [runTurns, hhalt, htcs, Bool.false_eq_true, if_false, hres]
                rw [he1]
                simp
              · simp only [runTurns, hhalt, htcs, Bool.false_eq_true, if_false, hres]
                rw [he2]
                simp
              · intro h
                simp only [runTurns, hhalt, htcs, Bool.false_eq_true, if_false, hres]
                exact hewf (OracleWF_tail h).1
              · intro _ _ h
                simp only [runTurns, hhalt, htcs, Bool.false_eq_true, if_false, hres] at h
                exact RunRes.noConfusion h
            · refine ⟨pending ++ [.assistant m] ++ Δe, ?_, ?_, ?_, ?_⟩
              · simp only [runTurns, hhalt, htcs, Bool.false_eq_true, if_false, hres]
                rw [he1]
                simp
              · simp only [runTurns, hhalt, htcs, Bool.false_eq_true, if_false, hres]
                rw [he2]
                simp
              · intro h
                simp only [runTurns, hhalt, htcs, Bool.false_eq_true, if_false, hres]
                exact hewf (OracleWF_tail h).1
              · intro _ _ h
                simp only [runTurns, hhalt, htcs, Bool.false_eq_true, if_false, hres] at h
                exact RunRes.noConfusion h
            · obtain ⟨results, steerOpt⟩ := ru
              obtain ⟨Δr, hr1, hr2, hrwf, hrok⟩ := iht cfg tools sys
                (nextPending cfg steerOpt (execToolCalls n cfg tools sys ⟨rest, steer, fus⟩
                  ⟨S.messages ++ pending ++ [.assistant m],
                   S.newMessages ++ pending ++ [.assistant m]⟩ (toolCallsOf m)).oracle).2
                (execToolCalls n cfg tools sys ⟨rest, steer, fus⟩
                  ⟨S.messages ++ pending ++ [.assistant m],
                   S.newMessages ++ pending ++ [.assistant m]⟩ (toolCallsOf m)).st false
                (nextPending cfg steerOpt (execToolCalls n cfg tools sys ⟨rest, steer, fus⟩
                  ⟨S.messages ++ pending ++ [.assistant m],
                   S.newMessages ++ pending ++ [.assistant m]⟩ (toolCallsOf m)).oracle).1
              refine ⟨pending ++ [.assistant m] ++ Δe ++ Δr, ?_, ?_, ?_, ?_⟩
              · simp only [runTurns, hhalt, htcs, Bool.false_eq_true, if_false, hres]
                rw [hr1, he1]
                simp
              · simp only [runTurns, hhalt, htcs, Bool.false_eq_true, if_false, hres]
                rw [hr2, he2]
                simp
              · intro h
                simp only [runTurns, hhalt, htcs, Bool.false_eq_true, if_false, hres]
                have hw1 := (OracleWF_tail h).1
                have hwe := hewf hw1
                have hnp := OracleWF_nextPending cfg steerOpt
                  (execToolCalls n cfg tools sys ⟨rest, steer, fus⟩
                    ⟨S.messages ++ pending ++ [.assistant m],
                     S.newMessages ++ pending ++ [.assistant m]⟩ (toolCallsOf m)).oracle
                  hwe (fun s' hs' => (heok results steerOpt hres).2 s' hs' hw1)
                exact hrwf hnp.1
              · intro hpend hw hres2 s hsok hsclose
                have hw1 := (OracleWF_tail hw).1
                have hnodup := (OracleWF_tail hw).2
                have hwe := hewf hw1
                obtain ⟨hpair, hso⟩ := heok results steerOpt hres
                have hnp := OracleWF_nextPending cfg steerOpt
                  (execToolCalls n cfg tools sys ⟨rest, steer, fus⟩
                    ⟨S.messages ++ pending ++ [.assistant m],
                     S.newMessages ++ pending ++ [.assistant m]⟩ (toolCallsOf m)).oracle
                  hwe (fun s' hs' => hso s' hs' hw1)
                simp only [runTurns, hhalt, htcs, Bool.false_eq_true, if_false, hres]
                  at hres2
                rw [pairScan_append, pairScan_append, pairScan_append,
                  pairScan_inert pending (fun x hx => Or.inl (hpend x hx)) s]
                have hstep : [AgentMessage.assistant m].foldl pairStepLog s =
                    (⟨true, some ((toolCallIds m).map fun i => (i, 0))⟩ : PairSt) := by
                  simp [pairStepLog, hhalt, hsok, hsclose]
                rw [hstep, hpair true ((toolCallIds m).map fun i => (i, 0))]
                exact hrok hnp.2 hnp.1 hres2 _ rfl (closeOk_bumpAll (toolCallIds m) hnodup)
    have hS : ∀ cfg tools sys prompts log O, OracleWF O →
        OracleWF (startRun (n+1) cfg tools sys prompts log O).oracle := by
      intro cfg tools sys prompts log O h
      simp only [startRun]
      obtain ⟨Δ, h1, h2, hwf, hok⟩ := iht cfg tools sys (pollSteering cfg O).2
        ⟨log ++ prompts, prompts⟩ true (pollSteering cfg O).1
      exact hwf (OracleWF_pollSteering cfg O h).1
    exact ⟨hA, hH, hE, hT, hS⟩

end AgentCore

namespace AgentCore

/-- **C1 (amended).**  The pairing invariant holds in the amended form: for
every completed start-entry run whose injected prompts are user messages and
whose environment is well-formed (steering/follow-up polls answer only user
messages, every adapter response has pairwise distinct tool-call ids), every
`toolCall` id of every assistant message in `newMessages` — except an
assistant message with `stopReason` `error`/`aborted`, whose tool calls are
never dispatched because the run ends immediately at DECIDE (source lines
143-156) — is followed, before the next assistant message, by exactly one
`toolResult` with that id; skipped tool calls contribute their synthetic
error results (source lines 502-539) to this pairing.  The unamended claim
is refuted by `claim_C1_counterexample`. -/
theorem claim_C1 (fuel : Nat) (cfg : LoopConfig) (tools : List AgentTool)
    (sys : String) (prompts callerLog : List AgentMessage) (O : Oracle)
    (hprompts : ∀ x ∈ prompts, isUserMsg x = true)
    (hwf : OracleWF O)
    (hok : (startRun fuel cfg tools sys prompts callerLog O).res = .ok ()) :
    pairedLog (startRun fuel cfg tools sys prompts callerLog O).st.newMessages = true := by
  cases fuel with
  | zero => simp [startRun] at hok
  | succ n =>
    obtain ⟨-, -, -, hT, -⟩ := pairingInvariant n
    obtain ⟨Δ, h1, h2, hwf2, hok2⟩ := hT cfg tools sys (pollSteering cfg O).2
      ⟨callerLog ++ prompts, prompts⟩ true (pollSteering cfg O).1
    simp only [startRun] at hok ⊢
    rw [h2]
    show pairedLog (prompts ++ Δ) = true
    have hp := OracleWF_pollSteering cfg O hwf
    have hc := hok2 hp.2 hp.1 hok ⟨true, none⟩ rfl rfl
    simp only [pairedLog]
    rw [pairScan_append, pairScan_inert prompts (fun x hx => Or.inl (hprompts x hx))]
    rw [hc.1, hc.2]
    rfl

/-- A run for the C1 witness: the first response carries two tool calls;
after the first tool result the steering poll answers `[user "interrupt"]`,
so the second call is skipped with a synthetic error result, and the next
turn's response stops. -/
def OC1 : Oracle :=
  ⟨[⟨[.toolCall "a1" "echo" "{}", .toolCall "a2" "echo" "{}"], .toolUse⟩,
    ⟨[.text "done"], .stop⟩],
   [[], [.user "interrupt"]], []⟩

/-- Witness for `claim_C1` on a concrete steering-interrupted run: tool call
`a1` gets a real result, `a2` only the synthetic skip result, and the
amended pairing predicate holds on the resulting log. -/
theorem claim_C1_witness :
    (∀ x ∈ [AgentMessage.user "go"], isUserMsg x = true)
  ∧ OracleWF OC1
  ∧ (startRun 6 cfgSteer [echoToolFx] "sys" [.user "go"] [] OC1).res = .ok ()
  ∧ (startRun 6 cfgSteer [echoToolFx] "sys" [.user "go"] [] OC1).st.newMessages =
      [.user "go",
       .assistant ⟨[.toolCall "a1" "echo" "{}", .toolCall "a2" "echo" "{}"], .toolUse⟩,
       .toolResult "a1" "echo" "echoed: x" false,
       .toolResult "a2" "echo" skippedText true,
       .user "interrupt",
       .assistant ⟨[.text "done"], .stop⟩]
  ∧ pairedLog (startRun 6 cfgSteer [echoToolFx] "sys" [.user "go"] [] OC1).st.newMessages
      = true :=
  ⟨by decide, ⟨by decide, by decide, by decide⟩, by decide, by decide,
   claim_C1 6 cfgSteer [echoToolFx] "sys" [.user "go"] [] OC1
     (by decide) ⟨by decide, by decide, by decide⟩ (by decide)⟩

end AgentCore
